import Mathlib

/-!
The videovault transcode-and-distribute pipeline.

A shallow embedding of `internal/service/video_processing.go`
(`selectStorageNode`, `transcodeAndSegment`, `updateStatus`, `ProcessVideo`)
together with the properties of the pipeline that are proved about it.

Strings are Lean strings (sequences of Unicode code points, i.e. well-formed
UTF-8), Go's `int` is a 64-bit two's complement integer, and the outside world
(file system, object store, transcoder, identifier generator) is an explicit
oracle that a run reads its outcomes from.  A run produces the list of the
effects it issued, in order.
-/

namespace VideoVault

/-! ## Machine integers -/

/-- Go's `int` on a 64-bit platform: the value of `x` after wrap-around into
the range `[-2^63, 2^63)`. -/
def wrapInt64 (x : Int) : Int := (x + 2 ^ 63) % 2 ^ 64 - 2 ^ 63

/-! ## selectStorageNode -/

/-- The node list of `selectStorageNode`. -/
def nodes : List String := ["node-1", "node-2", "node-3", "node-4"]

/-- The loop `for _, c := range segmentID { hash += int(c) }`, started from
`hash`, over the code points of the identifier. -/
def hashLoop : Int → List Char → Int
  | hash, [] => hash
  | hash, c :: cs => hashLoop (wrapInt64 (hash + (c.toNat : Int))) cs

/-- Indexing `nodes[i]` with Go's run-time bounds check: `none` is the
out-of-range panic. -/
def indexNodes (i : Int) : Option String :=
  if 0 ≤ i then nodes.get? i.toNat else none

/-- The function `selectStorageNode`: `nodes[hash%len(nodes)]`, where `%` is
Go's truncated remainder. -/
def selectStorageNode (segmentID : String) : Option String :=
  let hash := hashLoop 0 segmentID.data
  indexNodes (hash.tmod (nodes.length : Int))

/-- The sum of the code points of the characters of a string. -/
def codePointSum (s : String) : Nat := (s.data.map Char.toNat).sum

/-! ## Data model (`internal/models/video.go`, `internal/config/config.go`)

Timestamps and durations (`UploadedAt`, `UpdatedAt`, `Duration`) are left out:
no effect of the pipeline depends on them. -/

/-- The struct `models.VideoUploadEvent`. -/
structure VideoUploadEvent where
  VideoID : String
  UserID : String
  FileName : String
  FileSize : Int
  S3Key : String
  deriving DecidableEq

/-- The struct `models.ProcessingStatus`; `Status` is one of pending,
processing, completed, failed. -/
structure ProcessingStatus where
  VideoID : String
  Status : String
  Progress : Nat
  Message : String
  deriving DecidableEq

/-- The struct `models.VideoQuality`. -/
structure VideoQuality where
  Resolution : String
  Bitrate : String
  Codec : String
  deriving DecidableEq

/-- The struct `models.VideoSegment`. -/
structure VideoSegment where
  SegmentID : String
  VideoID : String
  Quality : String
  Sequence : Nat
  S3Key : String
  NodeID : String
  deriving DecidableEq

/-- The part of `config.Config` the pipeline reads. -/
structure Config where
  TempDir : String
  deriving DecidableEq

/-! ## Identifiers, formatting and paths -/

/-- A value of `uuid.UUID`: sixteen bytes. -/
structure UUID where
  bytes : List (Fin 256)
  size : bytes.length = 16

/-- Two lower-case hexadecimal digits of a byte. -/
def hexByte (b : Fin 256) : List Char :=
  [Nat.digitChar (b.val / 16), Nat.digitChar (b.val % 16)]

/-- The hexadecimal digits of a run of bytes. -/
def hexBytes : List (Fin 256) → List Char
  | [] => []
  | b :: bs => hexByte b ++ hexBytes bs

/-- The method `UUID.String`: the form xxxxxxxx-xxxx-xxxx-xxxx-xxxxxxxxxxxx. -/
def uuidString (u : UUID) : String :=
  String.mk (hexBytes (u.bytes.take 4) ++ '-' :: hexBytes ((u.bytes.drop 4).take 2)
    ++ '-' :: hexBytes ((u.bytes.drop 6).take 2) ++ '-' :: hexBytes ((u.bytes.drop 8).take 2)
    ++ '-' :: hexBytes (u.bytes.drop 10))

/-- The verb `%03d` of `fmt.Sprintf` on a non-negative integer: its decimal
digits, padded on the left with zeros to a width of three. -/
def pad3 (i : Nat) : List Char :=
  let d := Nat.toDigits 10 i
  List.replicate (3 - d.length) '0' ++ d

/-- The name the transcoder gives segment number `i` under the pattern
`segment_%03d.ts`. -/
def segmentFileName (i : Nat) : String :=
  "segment_" ++ String.mk (pad3 i) ++ ".ts"

/-- The object key `fmt.Sprintf("videos/%s/%s/segment_%03d.ts", videoID, resolution, i)`. -/
def segmentKey (videoID resolution : String) (i : Nat) : String :=
  "videos/" ++ videoID ++ "/" ++ resolution ++ "/segment_" ++ String.mk (pad3 i) ++ ".ts"

/-- The object key `fmt.Sprintf("videos/%s/%s/playlist.m3u8", videoID, resolution)`. -/
def playlistKey (videoID resolution : String) : String :=
  "videos/" ++ videoID ++ "/" ++ resolution ++ "/playlist.m3u8"

/-- The elements of a path between its separators. -/
def splitSlash : List Char → List (List Char)
  | [] => [[]]
  | c :: cs =>
    match splitSlash cs with
    | [] => [[c]]
    | x :: xs => if c = '/' then [] :: x :: xs else (c :: x) :: xs

/-- One path element read by `filepath.Clean`; `stack` holds the elements kept
so far, the last one first.  An empty element and `.` are dropped; `..` removes
the element before it, is dropped at the root, and is kept at the start of a
path that is not rooted. -/
def cleanStep (rooted : Bool) (stack : List (List Char)) (elem : List Char) :
    List (List Char) :=
  if elem = [] ∨ elem = ['.'] then stack
  else if elem = ['.', '.'] then
    match stack with
    | top :: rest => if top = ['.', '.'] then elem :: stack else rest
    | [] => if rooted then [] else [elem]
  else elem :: stack

/-- The function `filepath.Clean` (Unix separator). -/
def cleanPath (path : String) : String :=
  let rooted := path.data.head? = some '/'
  let stack := (splitSlash path.data).foldl (cleanStep rooted) []
  let body := List.intercalate ['/'] stack.reverse
  if rooted then String.mk ('/' :: body)
  else if body = [] then "." else String.mk body

/-- The function `filepath.Join`: the elements from the first non-empty one on,
joined by the separator and cleaned; the empty string when all are empty. -/
def joinPath (parts : List String) : String :=
  match parts.dropWhile fun p => p = "" with
  | [] => ""
  | ps => cleanPath ("/".intercalate ps)

/-- The prefix of a path up to and including its last separator. -/
def uptoLastSlash : List Char → List Char
  | [] => []
  | c :: cs =>
    if cs.contains '/' then c :: uptoLastSlash cs
    else if c = '/' then [c] else []

/-- The function `filepath.Dir`. -/
def dirPath (path : String) : String := cleanPath (String.mk (uptoLastSlash path.data))

/-- Go's string comparison `a <= b` on lists of code points: lexical, code
point by code point (the same order as byte by byte on the UTF-8 encoding). -/
def lexLE : List Char → List Char → Bool
  | [], _ => true
  | _ :: _, [] => false
  | a :: as, b :: bs =>
    if a.toNat < b.toNat then true
    else if b.toNat < a.toNat then false
    else lexLE as bs

/-- The order `sort.Strings` sorts by. -/
def strLE (a b : String) : Prop := lexLE a.data b.data = true

instance strLE_decidable : DecidableRel strLE := fun a b =>
  inferInstanceAs (Decidable (lexLE a.data b.data = true))

/-- The function `hasMeta` of `path/filepath` (not Windows): whether a path
contains one of the characters a pattern gives a meaning to. -/
def hasMeta (path : String) : Bool :=
  path.data.any fun c => c = '*' || c = '?' || c = '[' || c = '\\'

/-- The listing of one directory by `filepath.Glob` for the file pattern
`*.ts`, given the names in the directory: the names ending in `.ts`, in
lexical order, each joined to `dir`. -/
def globDir (dir : String) (entries : List String) : List String :=
  ((entries.filter fun n => ".ts".data.isSuffixOf n.data).insertionSort strLE).map
    fun n => joinPath [dir, n]

/-- The function `filepath.Glob` on the pattern `dir/*.ts` when the pattern is
well formed.  A directory part without metacharacters is read as a name, and
`entries` are the names in that directory.  A directory part with a
metacharacter is itself a pattern: `matched` are the paths of the file system
that match it, in the order `filepath.Glob` finds them, each with the names it
holds (none for a path that is not a directory), and the listing is that of
each of them in turn. -/
def Glob (dir : String) (entries : List String) (matched : List (String × List String)) :
    List String :=
  if hasMeta dir then matched.flatMap fun d => globDir d.1 d.2
  else globDir dir entries

/-- The number a run of decimal digits denotes. -/
def decimalValue (l : List Char) : Nat :=
  l.foldl (fun a c => 10 * a + (c.toNat - 48)) 0

/-- Whether a character is one of 0..9. -/
def isDecimalDigit (c : Char) : Bool := decide (48 ≤ c.toNat) && decide (c.toNat ≤ 57)

/-- The names of the `k` segment files the transcoder writes under the pattern
`segment_%03d.ts`, numbered 0..k-1. -/
def producedSegments (k : Nat) : List String := (List.range k).map segmentFileName

/-! ## Effects and the outside world -/

/-- The Prometheus metrics of `internal/metrics/metrics.go` that the pipeline
touches. -/
inductive Metric where
  | VideoProcessingTotal (status : String)
  | VideoProcessingDuration (quality : String)
  | FFmpegProcessingFailures
  | VideoSegmentsCreated (quality : String)
  deriving DecidableEq

/-- What a run does to the outside world, one constructor per kind of call.
`enter` marks a call of `transcodeAndSegment`; `putStatus` and `putSegment`
are the two `etcdClient.Put` calls, carrying the record that is serialised;
`log.Printf` calls are left out. -/
inductive Effect where
  | putStatus (key : String) (status : ProcessingStatus)
  | publishStatus (status : ProcessingStatus)
  | mkdirAll (path : String)
  | download (s3Key localPath : String)
  | enter (videoID inputPath : String) (quality : VideoQuality)
  | ffmpeg (inputPath : String) (quality : VideoQuality) (outputPattern playlistPath : String)
  | glob (pattern : String)
  | upload (localPath s3Key : String)
  | putSegment (key : String) (segment : VideoSegment)
  | inc (metric : Metric)
  | observe (metric : Metric)
  | removeAll (path : String)
  deriving DecidableEq

/-- What one call of `transcodeAndSegment` meets: for each fallible call its
error (`none` is success; `filepath.Glob` fails only on a malformed pattern),
the names found in the output directory once the transcoder has run, the paths
matching the output directory read as a pattern, each with the names it holds
(looked at only when the output directory has a metacharacter), and the
identifier `uuid.New()` returns in iteration `i`. -/
structure TierWorld where
  mkdirErr : Option String
  ffmpegErr : Option String
  globErr : Option String
  entries : List String
  matched : List (String × List String)
  uuid : Nat → UUID
  uploadErr : Nat → Option String
  playlistErr : Option String

/-- What one run of `ProcessVideo` meets: the outcome of creating the working
directory, of the download, and of each tier (by position). -/
structure World where
  mkdirErr : Option String
  downloadErr : Option String
  tier : Nat → TierWorld

/-- How a call returns: `nil`, an error (its text), or a run-time panic. -/
inductive Result where
  | ok
  | err (msg : String)
  | panic
  deriving DecidableEq

/-! ## updateStatus, transcodeAndSegment, ProcessVideo -/

/-- The method `updateStatus`: the status record is put under
`/processing-status/{videoID}` and published; neither result is looked at. -/
def updateStatus (videoID status : String) (progress : Nat) (message : String) : List Effect :=
  let statusUpdate : ProcessingStatus :=
    { VideoID := videoID, Status := status, Progress := progress, Message := message }
  [Effect.putStatus ("/processing-status/" ++ videoID) statusUpdate,
   Effect.publishStatus statusUpdate]

/-- The body of the loop `for i, file := range files` of
`transcodeAndSegment` at index `i`, followed by `next`, the rest of the loop.
The flag is true when the loop panicked. -/
def segmentStep (tw : TierWorld) (videoID resolution : String) (i : Nat) (file : String)
    (next : List Effect × Bool) : List Effect × Bool :=
  let segmentID := uuidString (tw.uuid i)
  let s3Key := segmentKey videoID resolution i
  match tw.uploadErr i with
  | some _ => (Effect.upload file s3Key :: next.1, next.2)
  | none =>
    match selectStorageNode segmentID with
    | none => ([Effect.upload file s3Key], true)
    | some node =>
      let segment : VideoSegment :=
        { SegmentID := segmentID, VideoID := videoID, Quality := resolution,
          Sequence := i, S3Key := s3Key, NodeID := node }
      (Effect.upload file s3Key :: Effect.putSegment ("/segments/" ++ segmentID) segment ::
        Effect.inc (Metric.VideoSegmentsCreated resolution) :: next.1, next.2)

/-- The loop `for i, file := range files` of `transcodeAndSegment`, from index
`i` on. -/
def segmentLoop (tw : TierWorld) (videoID resolution : String) :
    Nat → List String → List Effect × Bool
  | _, [] => ([], false)
  | i, file :: rest =>
    segmentStep tw videoID resolution i file (segmentLoop tw videoID resolution (i + 1) rest)

/-- The method `transcodeAndSegment`. -/
def transcodeAndSegment (cfg : Config) (tw : TierWorld) (videoID inputPath : String)
    (quality : VideoQuality) : List Effect × Result :=
  let outputDir := joinPath [cfg.TempDir, videoID, quality.Resolution]
  let t0 := [Effect.enter videoID inputPath quality, Effect.mkdirAll outputDir]
  match tw.mkdirErr with
  | some e => (t0, Result.err e)
  | none =>
    let outputPattern := joinPath [outputDir, "segment_%03d.ts"]
    let playlistPath := joinPath [outputDir, "playlist.m3u8"]
    let t1 := t0 ++ [Effect.ffmpeg inputPath quality outputPattern playlistPath]
    match tw.ffmpegErr with
    | some e => (t1, Result.err ("ffmpeg failed: " ++ e))
    | none =>
      let t2 := t1 ++ [Effect.glob (joinPath [outputDir, "*.ts"])]
      match tw.globErr with
      | some e => (t2, Result.err e)
      | none =>
        let files := Glob outputDir tw.entries tw.matched
        let r := segmentLoop tw videoID quality.Resolution 0 files
        if r.2 then (t2 ++ r.1, Result.panic)
        else
          let playlistS3Key := playlistKey videoID quality.Resolution
          (t2 ++ r.1 ++ [Effect.upload playlistPath playlistS3Key,
            Effect.observe (Metric.VideoProcessingDuration quality.Resolution)], Result.ok)

/-- The tier list of `ProcessVideo`. -/
def qualities : List VideoQuality :=
  [{ Resolution := "1080p", Bitrate := "5000k", Codec := "libx264" },
   { Resolution := "720p", Bitrate := "2500k", Codec := "libx264" },
   { Resolution := "480p", Bitrate := "1000k", Codec := "libx264" },
   { Resolution := "360p", Bitrate := "500k", Codec := "libx264" }]

/-- The body of the loop `for i, quality := range qualities` of `ProcessVideo`
at index `i`, followed by `next`, the rest of the loop; `total` is
`len(qualities)`.  The flag is true when a tier panicked. -/
def tierStep (cfg : Config) (w : World) (videoID localPath : String) (total : Nat)
    (i : Nat) (quality : VideoQuality) (next : List Effect × Bool) : List Effect × Bool :=
  let r := transcodeAndSegment cfg (w.tier i) videoID localPath quality
  match r.2 with
  | Result.panic => (r.1, true)
  | Result.err _ => (r.1 ++ Effect.inc Metric.FFmpegProcessingFailures :: next.1, next.2)
  | Result.ok =>
    let progress := 10 + ((i + 1) * 80 / total)
    (r.1 ++ updateStatus videoID "processing" progress ("Transcoded " ++ quality.Resolution)
      ++ next.1, next.2)

/-- The loop `for i, quality := range qualities` of `ProcessVideo`, from index
`i` on. -/
def tierLoop (cfg : Config) (w : World) (videoID localPath : String) (total : Nat) :
    Nat → List VideoQuality → List Effect × Bool
  | _, [] => ([], false)
  | i, quality :: rest =>
    tierStep cfg w videoID localPath total i quality
      (tierLoop cfg w videoID localPath total (i + 1) rest)

/-- The method `ProcessVideo`: the effects of the run, in order, and how it
returns. -/
def ProcessVideo (cfg : Config) (w : World) (event : VideoUploadEvent) : List Effect × Result :=
  let t0 := updateStatus event.VideoID "processing" 0 "Starting video processing"
  let localPath := joinPath [cfg.TempDir, event.VideoID, event.FileName]
  let t1 := t0 ++ [Effect.mkdirAll (dirPath localPath)]
  match w.mkdirErr with
  | some e => (t1, Result.err ("failed to create temp directory: " ++ e))
  | none =>
    let t2 := t1 ++ [Effect.download event.S3Key localPath]
    match w.downloadErr with
    | some e =>
      (t2 ++ updateStatus event.VideoID "failed" 0 ("Failed to download video: " ++ e)
        ++ [Effect.inc (Metric.VideoProcessingTotal "failed")], Result.err e)
    | none =>
      let t3 := t2 ++ updateStatus event.VideoID "processing" 10
        "Video downloaded, starting transcoding"
      let k := tierLoop cfg w event.VideoID localPath qualities.length 0 qualities
      if k.2 then (t3 ++ k.1, Result.panic)
      else
        (t3 ++ k.1 ++ Effect.removeAll (joinPath [cfg.TempDir, event.VideoID]) ::
          updateStatus event.VideoID "completed" 100 "Video processing completed"
          ++ [Effect.inc (Metric.VideoProcessingTotal "success"),
              Effect.observe (Metric.VideoProcessingDuration "all")], Result.ok)

/-! ## Observations on a trace -/

/-- The status records written, in order. -/
def statusesWritten : List Effect → List ProcessingStatus
  | [] => []
  | Effect.putStatus _ st :: t => st :: statusesWritten t
  | _ :: t => statusesWritten t

/-- The Segment records persisted, in order. -/
def segmentsPersisted : List Effect → List VideoSegment
  | [] => []
  | Effect.putSegment _ seg :: t => seg :: segmentsPersisted t
  | _ :: t => segmentsPersisted t

/-- The tiers (resolution labels) `transcodeAndSegment` was called for, in order. -/
def tiersAttempted : List Effect → List String
  | [] => []
  | Effect.enter _ _ q :: t => q.Resolution :: tiersAttempted t
  | _ :: t => tiersAttempted t

/-- How often the FFmpeg-failure counter was incremented. -/
def ffmpegFailures (t : List Effect) : Nat :=
  t.count (Effect.inc Metric.FFmpegProcessingFailures)

/-- Whether one of the fallible calls before the segment loop of
`transcodeAndSegment` fails in this world: creating the output directory, the
transcoder, or the directory listing. -/
def tierFails (tw : TierWorld) : Bool :=
  tw.mkdirErr.isSome || tw.ffmpegErr.isSome || tw.globErr.isSome

/-- The statuses the tier loop writes from index `i` on, read off the world:
one per tier that does not fail, with the progress of its position. -/
def tierStatuses (w : World) (videoID : String) (total : Nat) :
    Nat → List VideoQuality → List ProcessingStatus
  | _, [] => []
  | i, q :: qs =>
    if tierFails (w.tier i) then tierStatuses w videoID total (i + 1) qs
    else
      { VideoID := videoID, Status := "processing", Progress := 10 + ((i + 1) * 80 / total),
        Message := "Transcoded " ++ q.Resolution } :: tierStatuses w videoID total (i + 1) qs

/-- How the call of `transcodeAndSegment` for the tier at position `k` of a
run returns. -/
def tierResult (cfg : Config) (w : World) (event : VideoUploadEvent) (k : Nat)
    (q : VideoQuality) : Result :=
  (transcodeAndSegment cfg (w.tier k) event.VideoID
    (joinPath [cfg.TempDir, event.VideoID, event.FileName]) q).2

/-- The effects of the call of `transcodeAndSegment` for the tier at position
`k` of a run. -/
def tierEffects (cfg : Config) (w : World) (event : VideoUploadEvent) (k : Nat)
    (q : VideoQuality) : List Effect :=
  (transcodeAndSegment cfg (w.tier k) event.VideoID
    (joinPath [cfg.TempDir, event.VideoID, event.FileName]) q).1

/-! ## Sample runs -/

/-- The all-zero identifier. -/
def uuidZero : UUID := ⟨List.replicate 16 0, rfl⟩

/-- A tier in which every call succeeds and the transcoder leaves a manifest
and two segment files; no path of the file system matches the output directory
read as a pattern. -/
def tierAllOk : TierWorld :=
  { mkdirErr := none, ffmpegErr := none, globErr := none,
    entries := ["playlist.m3u8", "segment_001.ts", "segment_000.ts"], matched := [],
    uuid := fun _ => uuidZero, uploadErr := fun _ => none, playlistErr := none }

/-- A run in which the download succeeds and the transcoder fails for the first
tier only. -/
def worldFirstTierFails : World :=
  { mkdirErr := none, downloadErr := none,
    tier := fun i =>
      if i = 0 then { tierAllOk with ffmpegErr := some "exit status 1" } else tierAllOk }

/-- The default configuration of `config.Load`. -/
def cfgDefault : Config := { TempDir := "/tmp/video-processing" }

/-- An upload event for video `v1`. -/
def eventV1 : VideoUploadEvent :=
  { VideoID := "v1", UserID := "u1", FileName := "a.mp4", FileSize := 1, S3Key := "uploads/a.mp4" }

/-- A run in which creating the working directory fails. -/
def worldMkdirFails : World :=
  { mkdirErr := some "mkdir /tmp/video-processing/v1: permission denied", downloadErr := none,
    tier := fun _ => tierAllOk }

/-- A run in which the download succeeds and the transcoder fails for every
tier. -/
def worldAllTiersFail : World :=
  { mkdirErr := none, downloadErr := none,
    tier := fun _ => { tierAllOk with ffmpegErr := some "exit status 1" } }

/-- A run for an event with an empty file name: the source is downloaded to
the path of the working directory itself, so creating the output directory
fails for every tier and the transcoder is never started. -/
def worldOutputDirsFail : World :=
  { mkdirErr := none, downloadErr := none,
    tier := fun _ =>
      { tierAllOk with mkdirErr := some "mkdir /tmp/video-processing/v1: not a directory" } }

/-- A run in which the download fails. -/
def worldDownloadFails : World :=
  { mkdirErr := none, downloadErr := some "failed to download from S3: NoSuchKey",
    tier := fun _ => tierAllOk }

/-- A tier in which the transcoder leaves two segment files and the upload of
the first one fails. -/
def tierFirstUploadFails : TierWorld :=
  { tierAllOk with uploadErr := fun i => if i = 0 then some "failed to upload to S3" else none }

/-- A tier in which every call succeeds and the transcoder leaves a manifest
and 1001 segment files (a source of about 2 hours 47 minutes at 10 seconds per
segment). -/
def tierLongVideo : TierWorld :=
  { tierAllOk with entries := "playlist.m3u8" :: producedSegments 1001 }

set_option maxRecDepth 100000

/-! ## Properties of selectStorageNode -/

theorem wrapInt64_eq_self {x : Int} (h0 : 0 ≤ x) (h1 : x < 2 ^ 63) : wrapInt64 x = x := by
  unfold wrapInt64
  norm_num at h1 ⊢
  omega

theorem hashLoop_eq_sum (cs : List Char) (h : Nat)
    (hb : h + (cs.map Char.toNat).sum < 2 ^ 63) :
    hashLoop (h : Int) cs = ((h + (cs.map Char.toNat).sum : Nat) : Int) := by
  induction cs generalizing h with
  | nil => simp [hashLoop]
  | cons c cs ih =>
    simp only [List.map_cons, List.sum_cons] at hb ⊢
    have hb2 : h + c.toNat + (cs.map Char.toNat).sum < 2 ^ 63 := by
      rw [Nat.add_assoc]
      exact hb
    have hlt : ((h + c.toNat : Nat) : Int) < 2 ^ 63 := by
      have : h + c.toNat < 2 ^ 63 := lt_of_le_of_lt (Nat.le_add_right _ _) hb2
      exact_mod_cast this
    have hc : wrapInt64 ((h : Int) + (c.toNat : Int)) = ((h + c.toNat : Nat) : Int) := by
      rw [← Nat.cast_add]
      exact wrapInt64_eq_self (Int.ofNat_nonneg _) hlt
    rw [hashLoop, hc, ih (h + c.toNat) hb2, Nat.add_assoc]

theorem selectStorageNode_eq (s : String) (h : codePointSum s < 2 ^ 63) :
    selectStorageNode s = nodes.get? (codePointSum s % 4) := by
  have hl := hashLoop_eq_sum s.data 0 (by simpa [codePointSum] using h)
  simp only [Nat.cast_zero, Nat.zero_add] at hl
  unfold selectStorageNode indexNodes
  simp only [hl]
  have h4 : ((nodes.length : Nat) : Int) = ((4 : Nat) : Int) := rfl
  rw [h4, ← Int.ofNat_tmod]
  simp only [Int.ofNat_eq_coe, Int.toNat_ofNat, codePointSum]
  rw [if_pos (Int.ofNat_nonneg _)]

theorem char_toNat_lt (c : Char) : c.toNat < 2 ^ 21 := by
  have h := c.valid
  simp only [Char.toNat]
  rcases h with h | h
  · have : c.val.toNat < 0xd800 := h
    omega
  · have : c.val.toNat < 0x110000 := h.2
    omega

theorem sum_toNat_le (cs : List Char) : (cs.map Char.toNat).sum ≤ cs.length * 2 ^ 21 := by
  induction cs with
  | nil => simp
  | cons c cs ih =>
    have := char_toNat_lt c
    simp only [List.map_cons, List.sum_cons, List.length_cons]
    linarith

theorem codePointSum_lt (s : String) (h : s.length < 2 ^ 42) : codePointSum s < 2 ^ 63 := by
  have h1 := sum_toNat_le s.data
  have h2 : s.data.length < 2 ^ 42 := h
  unfold codePointSum
  calc (s.data.map Char.toNat).sum ≤ s.data.length * 2 ^ 21 := h1
    _ < 2 ^ 42 * 2 ^ 21 := by
        apply Nat.mul_lt_mul_of_pos_right h2 (by norm_num)
    _ = 2 ^ 63 := by norm_num

theorem selectStorageNode_mem (s : String) (h : codePointSum s < 2 ^ 63) :
    ∃ n, n ∈ nodes ∧ selectStorageNode s = some n := by
  have hlt : codePointSum s % 4 < nodes.length := Nat.mod_lt _ (by decide)
  refine ⟨nodes.get ⟨_, hlt⟩, List.get_mem _ _ _, ?_⟩
  rw [selectStorageNode_eq s h]
  exact List.get?_eq_get hlt

/-- C1: for every identifier whose code-point sum fits Go's 64-bit `int`,
`selectStorageNode` returns the element of the node list at index
(sum of code points) mod 4, which is one of the four node identifiers (no
out-of-range index), and the empty identifier maps to "node-1". -/
theorem selectStorageNode_spec (s : String) (h : codePointSum s < 2 ^ 63) :
    selectStorageNode s = nodes.get? (codePointSum s % 4) ∧
    (∃ n, n ∈ nodes ∧ selectStorageNode s = some n) ∧
    codePointSum s % 4 < nodes.length ∧
    selectStorageNode "" = some "node-1" := by
  refine ⟨selectStorageNode_eq s h, selectStorageNode_mem s h, Nat.mod_lt _ (by decide), ?_⟩
  rw [selectStorageNode_eq "" (by decide)]
  rfl

theorem selectStorageNode_spec_witness :
    codePointSum "ab" < 2 ^ 63 ∧ selectStorageNode "ab" = some "node-4" := by
  refine ⟨by decide, ?_⟩
  have h := (selectStorageNode_spec "ab" (by decide)).1
  rw [h]
  decide

/-! ## Identifiers never make selectStorageNode panic -/

theorem hexBytes_length (bs : List (Fin 256)) : (hexBytes bs).length = 2 * bs.length := by
  induction bs with
  | nil => rfl
  | cons b bs ih => simp [hexBytes, hexByte, ih]; omega

theorem uuidString_length (u : UUID) : (uuidString u).length = 36 := by
  have h := u.size
  simp only [uuidString, String.length, List.length_append, List.length_cons, hexBytes_length,
    List.length_take, List.length_drop, h]
  rfl

theorem selectStorageNode_uuid (u : UUID) :
    ∃ n, n ∈ nodes ∧ selectStorageNode (uuidString u) = some n := by
  have h : codePointSum (uuidString u) < 2 ^ 63 :=
    codePointSum_lt _ (by rw [uuidString_length]; norm_num)
  exact selectStorageNode_mem _ h

/-! ## Observations distribute over concatenation -/

theorem statusesWritten_append (a b : List Effect) :
    statusesWritten (a ++ b) = statusesWritten a ++ statusesWritten b := by
  induction a with
  | nil => rfl
  | cons e a ih => cases e <;> simp [statusesWritten, ih]

theorem segmentsPersisted_append (a b : List Effect) :
    segmentsPersisted (a ++ b) = segmentsPersisted a ++ segmentsPersisted b := by
  induction a with
  | nil => rfl
  | cons e a ih => cases e <;> simp [segmentsPersisted, ih]

theorem tiersAttempted_append (a b : List Effect) :
    tiersAttempted (a ++ b) = tiersAttempted a ++ tiersAttempted b := by
  induction a with
  | nil => rfl
  | cons e a ih => cases e <;> simp [tiersAttempted, ih]

theorem ffmpegFailures_append (a b : List Effect) :
    ffmpegFailures (a ++ b) = ffmpegFailures a + ffmpegFailures b := by
  simp [ffmpegFailures]

/-! ## The segment loop -/

theorem segmentLoop_no_panic (tw : TierWorld) (videoID resolution : String)
    (files : List String) (i : Nat) :
    (segmentLoop tw videoID resolution i files).2 = false := by
  induction files generalizing i with
  | nil => rfl
  | cons f rest ih =>
    obtain ⟨n, _, hn⟩ := selectStorageNode_uuid (tw.uuid i)
    simp only [segmentLoop, segmentStep]
    cases hu : tw.uploadErr i <;> simp [hn, ih]

theorem segmentLoop_statuses (tw : TierWorld) (videoID resolution : String)
    (files : List String) (i : Nat) :
    statusesWritten (segmentLoop tw videoID resolution i files).1 = [] := by
  induction files generalizing i with
  | nil => rfl
  | cons f rest ih =>
    simp only [segmentLoop, segmentStep]
    cases hu : tw.uploadErr i
    · cases hs : selectStorageNode (uuidString (tw.uuid i)) <;> simp [statusesWritten, ih]
    · simp [statusesWritten, ih]

theorem segmentLoop_tiers (tw : TierWorld) (videoID resolution : String)
    (files : List String) (i : Nat) :
    tiersAttempted (segmentLoop tw videoID resolution i files).1 = [] := by
  induction files generalizing i with
  | nil => rfl
  | cons f rest ih =>
    simp only [segmentLoop, segmentStep]
    cases hu : tw.uploadErr i
    · cases hs : selectStorageNode (uuidString (tw.uuid i)) <;> simp [tiersAttempted, ih]
    · simp [tiersAttempted, ih]

theorem segmentLoop_failures (tw : TierWorld) (videoID resolution : String)
    (files : List String) (i : Nat) :
    ffmpegFailures (segmentLoop tw videoID resolution i files).1 = 0 := by
  induction files generalizing i with
  | nil => rfl
  | cons f rest ih =>
    have ih' := ih (i + 1)
    unfold ffmpegFailures at ih' ⊢
    simp only [segmentLoop, segmentStep]
    cases hu : tw.uploadErr i
    · cases hs : selectStorageNode (uuidString (tw.uuid i)) <;> simp [ih']
    · simp [ih']

/-- The records the segment loop persists, in order: one for each position
whose upload succeeded, with that position as sequence number. -/
theorem segmentLoop_sequences (tw : TierWorld) (videoID resolution : String)
    (files : List String) (i : Nat) :
    (segmentsPersisted (segmentLoop tw videoID resolution i files).1).map VideoSegment.Sequence
      = (List.range' i files.length).filter fun j => (tw.uploadErr j).isNone := by
  induction files generalizing i with
  | nil => rfl
  | cons f rest ih =>
    obtain ⟨n, _, hn⟩ := selectStorageNode_uuid (tw.uuid i)
    simp only [segmentLoop, segmentStep]
    cases hu : tw.uploadErr i
    · simp [hn, segmentsPersisted, ih, List.range', hu]
    · simp [segmentsPersisted, ih, List.range', hu]

theorem segmentLoop_records (tw : TierWorld) (videoID resolution : String)
    (files : List String) (i : Nat) (seg : VideoSegment)
    (h : seg ∈ segmentsPersisted (segmentLoop tw videoID resolution i files).1) :
    selectStorageNode seg.SegmentID = some seg.NodeID ∧ seg.VideoID = videoID ∧
      seg.Quality = resolution ∧ seg.S3Key = segmentKey videoID resolution seg.Sequence := by
  induction files generalizing i with
  | nil => simp [segmentLoop, segmentsPersisted] at h
  | cons f rest ih =>
    obtain ⟨n, _, hn⟩ := selectStorageNode_uuid (tw.uuid i)
    simp only [segmentLoop, segmentStep] at h
    cases hu : tw.uploadErr i
    · simp only [hu, hn, segmentsPersisted, List.mem_cons] at h
      rcases h with rfl | h
      · exact ⟨hn, rfl, rfl, rfl⟩
      · exact ih _ h
    · simp only [hu, segmentsPersisted] at h
      exact ih _ h

/-! ## One tier: transcodeAndSegment -/

theorem transcodeAndSegment_ok_iff (cfg : Config) (tw : TierWorld) (videoID inputPath : String)
    (quality : VideoQuality) :
    (transcodeAndSegment cfg tw videoID inputPath quality).2 = Result.ok ↔ tierFails tw = false := by
  unfold transcodeAndSegment tierFails
  cases h1 : tw.mkdirErr <;> cases h2 : tw.ffmpegErr <;> cases h3 : tw.globErr <;>
    simp [segmentLoop_no_panic]

theorem transcodeAndSegment_err_iff (cfg : Config) (tw : TierWorld) (videoID inputPath : String)
    (quality : VideoQuality) :
    (∃ e, (transcodeAndSegment cfg tw videoID inputPath quality).2 = Result.err e) ↔
      tierFails tw = true := by
  unfold transcodeAndSegment tierFails
  cases h1 : tw.mkdirErr <;> cases h2 : tw.ffmpegErr <;> cases h3 : tw.globErr <;>
    simp [segmentLoop_no_panic]

theorem transcodeAndSegment_no_panic (cfg : Config) (tw : TierWorld) (videoID inputPath : String)
    (quality : VideoQuality) :
    (transcodeAndSegment cfg tw videoID inputPath quality).2 ≠ Result.panic := by
  unfold transcodeAndSegment
  cases h1 : tw.mkdirErr <;> cases h2 : tw.ffmpegErr <;> cases h3 : tw.globErr <;>
    simp [segmentLoop_no_panic]

theorem transcodeAndSegment_statuses (cfg : Config) (tw : TierWorld) (videoID inputPath : String)
    (quality : VideoQuality) :
    statusesWritten (transcodeAndSegment cfg tw videoID inputPath quality).1 = [] := by
  unfold transcodeAndSegment
  cases h1 : tw.mkdirErr <;> cases h2 : tw.ffmpegErr <;> cases h3 : tw.globErr <;>
    simp [segmentLoop_no_panic, statusesWritten, statusesWritten_append, segmentLoop_statuses]

theorem transcodeAndSegment_tiers (cfg : Config) (tw : TierWorld) (videoID inputPath : String)
    (quality : VideoQuality) :
    tiersAttempted (transcodeAndSegment cfg tw videoID inputPath quality).1
      = [quality.Resolution] := by
  unfold transcodeAndSegment
  cases h1 : tw.mkdirErr <;> cases h2 : tw.ffmpegErr <;> cases h3 : tw.globErr <;>
    simp [segmentLoop_no_panic, tiersAttempted, tiersAttempted_append, segmentLoop_tiers]

theorem transcodeAndSegment_failures (cfg : Config) (tw : TierWorld) (videoID inputPath : String)
    (quality : VideoQuality) :
    ffmpegFailures (transcodeAndSegment cfg tw videoID inputPath quality).1 = 0 := by
  have hl := segmentLoop_failures tw videoID quality.Resolution
    (Glob (joinPath [cfg.TempDir, videoID, quality.Resolution]) tw.entries tw.matched) 0
  unfold ffmpegFailures at hl ⊢
  unfold transcodeAndSegment
  cases h1 : tw.mkdirErr <;> cases h2 : tw.ffmpegErr <;> cases h3 : tw.globErr <;>
    simp [segmentLoop_no_panic, hl]

/-- The records one call of `transcodeAndSegment` persists are those of its
segment loop when the tier succeeds, and none when it fails. -/
theorem transcodeAndSegment_segments (cfg : Config) (tw : TierWorld) (videoID inputPath : String)
    (quality : VideoQuality) :
    segmentsPersisted (transcodeAndSegment cfg tw videoID inputPath quality).1 =
      if tierFails tw then []
      else segmentsPersisted (segmentLoop tw videoID quality.Resolution 0
        (Glob (joinPath [cfg.TempDir, videoID, quality.Resolution]) tw.entries tw.matched)).1 := by
  unfold transcodeAndSegment tierFails
  cases h1 : tw.mkdirErr <;> cases h2 : tw.ffmpegErr <;> cases h3 : tw.globErr <;>
    simp [segmentLoop_no_panic, segmentsPersisted, segmentsPersisted_append]

/-! ## The tier loop -/

theorem tierStep_fail (cfg : Config) (w : World) (videoID localPath : String) (total i : Nat)
    (quality : VideoQuality) (next : List Effect × Bool) (h : tierFails (w.tier i) = true) :
    tierStep cfg w videoID localPath total i quality next =
      ((transcodeAndSegment cfg (w.tier i) videoID localPath quality).1 ++
        Effect.inc Metric.FFmpegProcessingFailures :: next.1, next.2) := by
  obtain ⟨e, he⟩ := (transcodeAndSegment_err_iff cfg (w.tier i) videoID localPath quality).2 h
  unfold tierStep
  simp only [he]

theorem tierStep_ok (cfg : Config) (w : World) (videoID localPath : String) (total i : Nat)
    (quality : VideoQuality) (next : List Effect × Bool) (h : tierFails (w.tier i) = false) :
    tierStep cfg w videoID localPath total i quality next =
      ((transcodeAndSegment cfg (w.tier i) videoID localPath quality).1 ++
        updateStatus videoID "processing" (10 + ((i + 1) * 80 / total))
          ("Transcoded " ++ quality.Resolution) ++ next.1, next.2) := by
  have he := (transcodeAndSegment_ok_iff cfg (w.tier i) videoID localPath quality).2 h
  unfold tierStep
  simp only [he]

theorem tierLoop_no_panic (cfg : Config) (w : World) (videoID localPath : String) (total : Nat)
    (qs : List VideoQuality) (i : Nat) :
    (tierLoop cfg w videoID localPath total i qs).2 = false := by
  induction qs generalizing i with
  | nil => rfl
  | cons q qs ih =>
    simp only [tierLoop]
    cases h : tierFails (w.tier i)
    · rw [tierStep_ok _ _ _ _ _ _ _ _ h]; exact ih _
    · rw [tierStep_fail _ _ _ _ _ _ _ _ h]; exact ih _

theorem statusesWritten_updateStatus (videoID status : String) (progress : Nat)
    (message : String) :
    statusesWritten (updateStatus videoID status progress message) =
      [{ VideoID := videoID, Status := status, Progress := progress, Message := message }] := rfl

theorem tierLoop_statuses (cfg : Config) (w : World) (videoID localPath : String) (total : Nat)
    (qs : List VideoQuality) (i : Nat) :
    statusesWritten (tierLoop cfg w videoID localPath total i qs).1 =
      tierStatuses w videoID total i qs := by
  induction qs generalizing i with
  | nil => rfl
  | cons q qs ih =>
    simp only [tierLoop, tierStatuses]
    cases h : tierFails (w.tier i)
    · rw [tierStep_ok _ _ _ _ _ _ _ _ h]
      simp [statusesWritten_append, transcodeAndSegment_statuses, statusesWritten_updateStatus, ih]
    · rw [tierStep_fail _ _ _ _ _ _ _ _ h]
      simp [statusesWritten_append, transcodeAndSegment_statuses, statusesWritten, ih]

theorem tierLoop_tiers (cfg : Config) (w : World) (videoID localPath : String) (total : Nat)
    (qs : List VideoQuality) (i : Nat) :
    tiersAttempted (tierLoop cfg w videoID localPath total i qs).1 =
      qs.map VideoQuality.Resolution := by
  induction qs generalizing i with
  | nil => rfl
  | cons q qs ih =>
    simp only [tierLoop]
    cases h : tierFails (w.tier i)
    · rw [tierStep_ok _ _ _ _ _ _ _ _ h]
      simp [tiersAttempted_append, transcodeAndSegment_tiers, updateStatus, tiersAttempted, ih]
    · rw [tierStep_fail _ _ _ _ _ _ _ _ h]
      simp [tiersAttempted_append, transcodeAndSegment_tiers, tiersAttempted, ih]

theorem tierLoop_failures (cfg : Config) (w : World) (videoID localPath : String) (total : Nat)
    (qs : List VideoQuality) (i : Nat) :
    ffmpegFailures (tierLoop cfg w videoID localPath total i qs).1 =
      ((List.range' i qs.length).filter fun j => tierFails (w.tier j)).length := by
  induction qs generalizing i with
  | nil => rfl
  | cons q qs ih =>
    simp only [tierLoop]
    cases h : tierFails (w.tier i)
    · rw [tierStep_ok _ _ _ _ _ _ _ _ h]
      simp only [ffmpegFailures_append, transcodeAndSegment_failures, ih, List.length_cons,
        List.range', List.filter_cons, h]
      simp [ffmpegFailures, updateStatus]
    · rw [tierStep_fail _ _ _ _ _ _ _ _ h]
      rw [← List.singleton_append, ffmpegFailures_append, ffmpegFailures_append,
        transcodeAndSegment_failures, ih]
      simp [ffmpegFailures, List.range', h]
      omega

theorem tierLoop_segments (cfg : Config) (w : World) (videoID localPath : String) (total : Nat)
    (qs : List VideoQuality) (i : Nat) (seg : VideoSegment)
    (hs : seg ∈ segmentsPersisted (tierLoop cfg w videoID localPath total i qs).1) :
    ∃ k q, qs.get? k = some q ∧ tierFails (w.tier (i + k)) = false ∧
      seg ∈ segmentsPersisted (transcodeAndSegment cfg (w.tier (i + k)) videoID localPath q).1 := by
  induction qs generalizing i with
  | nil => simp [tierLoop, segmentsPersisted] at hs
  | cons q qs ih =>
    simp only [tierLoop] at hs
    have step : seg ∈ segmentsPersisted (transcodeAndSegment cfg (w.tier i) videoID localPath q).1
        ∨ seg ∈ segmentsPersisted (tierLoop cfg w videoID localPath total (i + 1) qs).1 := by
      cases h : tierFails (w.tier i)
      · rw [tierStep_ok _ _ _ _ _ _ _ _ h] at hs
        simpa [segmentsPersisted_append, updateStatus, segmentsPersisted] using hs
      · rw [tierStep_fail _ _ _ _ _ _ _ _ h] at hs
        rw [← List.singleton_append] at hs
        simpa [segmentsPersisted_append, segmentsPersisted] using hs
    rcases step with h0 | h1
    · refine ⟨0, q, rfl, ?_, h0⟩
      cases h : tierFails (w.tier i)
      · exact h
      · rw [transcodeAndSegment_segments, h] at h0
        simp at h0
    · obtain ⟨k, q', hk, hf, hm⟩ := ih (i + 1) h1
      refine ⟨k + 1, q', by simpa using hk, ?_, ?_⟩
      · rw [← hf]; congr 2; omega
      · have e : i + (k + 1) = i + 1 + k := by omega
        rw [e]; exact hm

/-! ## A whole run: ProcessVideo -/

theorem ProcessVideo_mkdir_fails (cfg : Config) (w : World) (event : VideoUploadEvent)
    (e : String) (hm : w.mkdirErr = some e) :
    ProcessVideo cfg w event =
      (updateStatus event.VideoID "processing" 0 "Starting video processing" ++
        [Effect.mkdirAll (dirPath (joinPath [cfg.TempDir, event.VideoID, event.FileName]))],
       Result.err ("failed to create temp directory: " ++ e)) := by
  unfold ProcessVideo
  simp only [hm]

theorem ProcessVideo_download_fails (cfg : Config) (w : World) (event : VideoUploadEvent)
    (e : String) (hm : w.mkdirErr = none) (hd : w.downloadErr = some e) :
    ProcessVideo cfg w event =
      (updateStatus event.VideoID "processing" 0 "Starting video processing" ++
        [Effect.mkdirAll (dirPath (joinPath [cfg.TempDir, event.VideoID, event.FileName]))] ++
        [Effect.download event.S3Key (joinPath [cfg.TempDir, event.VideoID, event.FileName])] ++
        updateStatus event.VideoID "failed" 0 ("Failed to download video: " ++ e) ++
        [Effect.inc (Metric.VideoProcessingTotal "failed")],
       Result.err e) := by
  unfold ProcessVideo
  simp only [hm, hd]

theorem ProcessVideo_downloaded (cfg : Config) (w : World) (event : VideoUploadEvent)
    (hm : w.mkdirErr = none) (hd : w.downloadErr = none) :
    ProcessVideo cfg w event =
      (updateStatus event.VideoID "processing" 0 "Starting video processing" ++
        [Effect.mkdirAll (dirPath (joinPath [cfg.TempDir, event.VideoID, event.FileName]))] ++
        [Effect.download event.S3Key (joinPath [cfg.TempDir, event.VideoID, event.FileName])] ++
        updateStatus event.VideoID "processing" 10 "Video downloaded, starting transcoding" ++
        (tierLoop cfg w event.VideoID (joinPath [cfg.TempDir, event.VideoID, event.FileName])
          qualities.length 0 qualities).1 ++
        Effect.removeAll (joinPath [cfg.TempDir, event.VideoID]) ::
          updateStatus event.VideoID "completed" 100 "Video processing completed" ++
        [Effect.inc (Metric.VideoProcessingTotal "success"),
         Effect.observe (Metric.VideoProcessingDuration "all")],
       Result.ok) := by
  unfold ProcessVideo
  simp only [hm, hd, tierLoop_no_panic]
  rfl

/-- The statuses a run writes once the download has succeeded. -/
theorem ProcessVideo_statuses (cfg : Config) (w : World) (event : VideoUploadEvent)
    (hm : w.mkdirErr = none) (hd : w.downloadErr = none) :
    statusesWritten (ProcessVideo cfg w event).1 =
      { VideoID := event.VideoID, Status := "processing", Progress := 0,
        Message := "Starting video processing" } ::
      { VideoID := event.VideoID, Status := "processing", Progress := 10,
        Message := "Video downloaded, starting transcoding" } ::
      (tierStatuses w event.VideoID qualities.length 0 qualities ++
        [{ VideoID := event.VideoID, Status := "completed", Progress := 100,
           Message := "Video processing completed" }]) := by
  rw [ProcessVideo_downloaded cfg w event hm hd]
  simp only [statusesWritten_append, statusesWritten_updateStatus, tierLoop_statuses]
  simp [statusesWritten, updateStatus]

/-! ## Progress after each tier (C2) -/

/-- C2, as stated, fails: in this run the download succeeds and the first
tier (1080p) is attempted and fails; the statuses written go from progress 10
straight to the status of the second tier, and no status with progress
10 + 1 * 80 / 4 = 30 or naming 1080p is written. -/
theorem tier_progress_counterexample :
    worldFirstTierFails.mkdirErr = none ∧ worldFirstTierFails.downloadErr = none ∧
    tiersAttempted (ProcessVideo cfgDefault worldFirstTierFails eventV1).1
      = ["1080p", "720p", "480p", "360p"] ∧
    (statusesWritten (ProcessVideo cfgDefault worldFirstTierFails eventV1).1).map
      (fun st => (st.Status, st.Progress, st.Message)) =
    [("processing", 0, "Starting video processing"),
     ("processing", 10, "Video downloaded, starting transcoding"),
     ("processing", 50, "Transcoded 720p"),
     ("processing", 70, "Transcoded 480p"),
     ("processing", 90, "Transcoded 360p"),
     ("completed", 100, "Video processing completed")] := by
  refine ⟨rfl, rfl, ?_, ?_⟩
  · rfl
  · rfl

theorem tier_status_membership (cfg : Config) (w : World) (event : VideoUploadEvent)
    (hm : w.mkdirErr = none) (hd : w.downloadErr = none)
    (k : Nat) (q : VideoQuality) (hq : qualities.get? k = some q) :
    (tierResult cfg w event k q = Result.ok →
      { VideoID := event.VideoID, Status := "processing",
        Progress := 10 + ((k + 1) * 80 / qualities.length),
        Message := "Transcoded " ++ q.Resolution } ∈ statusesWritten (ProcessVideo cfg w event).1) ∧
    (tierResult cfg w event k q ≠ Result.ok →
      ∀ st ∈ statusesWritten (ProcessVideo cfg w event).1,
        st.Progress ≠ 10 + ((k + 1) * 80 / qualities.length) ∧
        st.Message ≠ "Transcoded " ++ q.Resolution) := by
  have hk : k < 4 := by
    by_contra hge
    have : qualities.get? k = none := List.get?_eq_none.2 (by simpa [qualities] using hge)
    rw [this] at hq
    cases hq
  have hres : tierResult cfg w event k q = Result.ok ↔ tierFails (w.tier k) = false :=
    transcodeAndSegment_ok_iff _ _ _ _ _
  rw [ProcessVideo_statuses cfg w event hm hd]
  simp only [ne_eq, hres]
  clear hres
  interval_cases k <;> simp only [qualities, List.get?, Option.some.injEq] at hq <;> subst hq <;>
    cases h0 : tierFails (w.tier 0) <;> cases h1 : tierFails (w.tier 1) <;>
    cases h2 : tierFails (w.tier 2) <;> cases h3 : tierFails (w.tier 3) <;>
    simp [tierStatuses, qualities, h0, h1, h2, h3]

/-- In the effects of the tier loop, the effects of each tier are directly
followed by its status update when the tier returned nil, and by the
increment of the failure counter when it returned an error. -/
theorem tierLoop_split (cfg : Config) (w : World) (videoID localPath : String) (total : Nat)
    (qs : List VideoQuality) (i k : Nat) (q : VideoQuality) (hq : qs.get? k = some q) :
    ∃ pre post, (tierLoop cfg w videoID localPath total i qs).1 =
      pre ++ ((transcodeAndSegment cfg (w.tier (i + k)) videoID localPath q).1 ++
        (if tierFails (w.tier (i + k)) then [Effect.inc Metric.FFmpegProcessingFailures]
         else updateStatus videoID "processing" (10 + ((i + k + 1) * 80 / total))
           ("Transcoded " ++ q.Resolution))) ++ post := by
  induction qs generalizing i k with
  | nil => simp at hq
  | cons q0 rest ih =>
    simp only [tierLoop]
    cases k with
    | zero =>
      simp only [List.get?, Option.some.injEq] at hq
      subst hq
      refine ⟨[], (tierLoop cfg w videoID localPath total (i + 1) rest).1, ?_⟩
      cases h : tierFails (w.tier i)
      · rw [tierStep_ok _ _ _ _ _ _ _ _ h]
        simp [h]
      · rw [tierStep_fail _ _ _ _ _ _ _ _ h]
        simp [h]
    | succ k =>
      have hq' : rest.get? k = some q := by simpa using hq
      obtain ⟨pre, post, hsplit⟩ := ih (i + 1) k hq'
      have e : i + (k + 1) = i + 1 + k := by omega
      rw [e]
      cases h : tierFails (w.tier i)
      · rw [tierStep_ok _ _ _ _ _ _ _ _ h]
        refine ⟨(transcodeAndSegment cfg (w.tier i) videoID localPath q0).1 ++
          updateStatus videoID "processing" (10 + ((i + 1) * 80 / total))
            ("Transcoded " ++ q0.Resolution) ++ pre, post, ?_⟩
        simp only [hsplit, List.append_assoc]
      · rw [tierStep_fail _ _ _ _ _ _ _ _ h]
        refine ⟨(transcodeAndSegment cfg (w.tier i) videoID localPath q0).1 ++
          Effect.inc Metric.FFmpegProcessingFailures :: pre, post, ?_⟩
        simp only [hsplit, List.append_assoc, List.cons_append]

theorem ProcessVideo_split (cfg : Config) (w : World) (event : VideoUploadEvent)
    (hm : w.mkdirErr = none) (hd : w.downloadErr = none)
    (k : Nat) (q : VideoQuality) (hq : qualities.get? k = some q) :
    ∃ pre post, (ProcessVideo cfg w event).1 =
      pre ++ (tierEffects cfg w event k q ++
        (if tierFails (w.tier k) then [Effect.inc Metric.FFmpegProcessingFailures]
         else updateStatus event.VideoID "processing" (10 + ((k + 1) * 80 / qualities.length))
           ("Transcoded " ++ q.Resolution))) ++ post := by
  obtain ⟨pre, post, hsplit⟩ := tierLoop_split cfg w event.VideoID
    (joinPath [cfg.TempDir, event.VideoID, event.FileName]) qualities.length qualities 0 k q hq
  rw [Nat.zero_add] at hsplit
  rw [ProcessVideo_downloaded cfg w event hm hd, hsplit]
  refine ⟨updateStatus event.VideoID "processing" 0 "Starting video processing" ++
      [Effect.mkdirAll (dirPath (joinPath [cfg.TempDir, event.VideoID, event.FileName]))] ++
      [Effect.download event.S3Key (joinPath [cfg.TempDir, event.VideoID, event.FileName])] ++
      updateStatus event.VideoID "processing" 10 "Video downloaded, starting transcoding" ++ pre,
    post ++ Effect.removeAll (joinPath [cfg.TempDir, event.VideoID]) ::
      updateStatus event.VideoID "completed" 100 "Video processing completed" ++
      [Effect.inc (Metric.VideoProcessingTotal "success"),
       Effect.observe (Metric.VideoProcessingDuration "all")], ?_⟩
  simp only [tierEffects, List.append_assoc]

/-- C2, amended: in every run in which the download succeeds, for the tier at
position `k`: when that tier's `transcodeAndSegment` returned nil, the status
with progress 10 + ((k+1) * 80 / n) and the message "Transcoded " followed by
the tier label is written, and its two writes directly follow the effects of
that call; when it returned an error, the increment of the FFmpeg-failure
counter directly follows the effects of that call, and no status with that
progress or that message is written anywhere in the run. -/
theorem tier_progress_written (cfg : Config) (w : World) (event : VideoUploadEvent)
    (hm : w.mkdirErr = none) (hd : w.downloadErr = none)
    (k : Nat) (q : VideoQuality) (hq : qualities.get? k = some q) :
    (tierResult cfg w event k q = Result.ok →
      { VideoID := event.VideoID, Status := "processing",
        Progress := 10 + ((k + 1) * 80 / qualities.length),
        Message := "Transcoded " ++ q.Resolution } ∈ statusesWritten (ProcessVideo cfg w event).1 ∧
      ∃ pre post, (ProcessVideo cfg w event).1 =
        pre ++ (tierEffects cfg w event k q ++
          updateStatus event.VideoID "processing" (10 + ((k + 1) * 80 / qualities.length))
            ("Transcoded " ++ q.Resolution)) ++ post) ∧
    (tierResult cfg w event k q ≠ Result.ok →
      (∀ st ∈ statusesWritten (ProcessVideo cfg w event).1,
        st.Progress ≠ 10 + ((k + 1) * 80 / qualities.length) ∧
        st.Message ≠ "Transcoded " ++ q.Resolution) ∧
      ∃ pre post, (ProcessVideo cfg w event).1 =
        pre ++ (tierEffects cfg w event k q ++
          [Effect.inc Metric.FFmpegProcessingFailures]) ++ post) := by
  have hmem := tier_status_membership cfg w event hm hd k q hq
  have hsplit := ProcessVideo_split cfg w event hm hd k q hq
  have hres : tierResult cfg w event k q = Result.ok ↔ tierFails (w.tier k) = false :=
    transcodeAndSegment_ok_iff _ _ _ _ _
  constructor
  · intro hok
    refine ⟨hmem.1 hok, ?_⟩
    rw [hres.1 hok] at hsplit
    simpa using hsplit
  · intro hne
    refine ⟨hmem.2 hne, ?_⟩
    have hf : tierFails (w.tier k) = true := by
      cases h : tierFails (w.tier k)
      · exact absurd (hres.2 h) hne
      · rfl
    rw [hf] at hsplit
    simpa using hsplit

theorem tier_progress_written_witness :
    { VideoID := "v1", Status := "processing", Progress := 50, Message := "Transcoded 720p" }
      ∈ statusesWritten (ProcessVideo cfgDefault worldFirstTierFails eventV1).1 :=
  ((tier_progress_written cfgDefault worldFirstTierFails eventV1 rfl rfl 1
    { Resolution := "720p", Bitrate := "2500k", Codec := "libx264" } rfl).1 (by rfl)).1

/-! ## Terminal status (C3) -/

/-- C3 fails on the code: when creating the working directory fails,
`ProcessVideo` returns the error right after the first status, so the last
(and only) status written by the run is `processing` with progress 0. -/
theorem mkdir_failure_leaves_processing :
    (ProcessVideo cfgDefault worldMkdirFails eventV1).2 =
      Result.err "failed to create temp directory: mkdir /tmp/video-processing/v1: permission denied" ∧
    statusesWritten (ProcessVideo cfgDefault worldMkdirFails eventV1).1 =
      [{ VideoID := "v1", Status := "processing", Progress := 0,
         Message := "Starting video processing" }] := by
  constructor <;> rfl

/-- Once the working directory has been created, the last status of a run is
`completed` or `failed`, and every status before the last one is `processing`
(so nothing is written after a terminal status). -/
theorem terminal_status_when_dir_created (cfg : Config) (w : World) (event : VideoUploadEvent)
    (hm : w.mkdirErr = none) :
    (∃ st, (statusesWritten (ProcessVideo cfg w event).1).getLast? = some st ∧
      (st.Status = "completed" ∨ st.Status = "failed")) ∧
    ∀ st ∈ (statusesWritten (ProcessVideo cfg w event).1).dropLast, st.Status = "processing" := by
  cases hd : w.downloadErr with
  | some e =>
    rw [ProcessVideo_download_fails cfg w event e hm hd]
    simp [statusesWritten_append, statusesWritten_updateStatus, statusesWritten]
  | none =>
    rw [ProcessVideo_statuses cfg w event hm hd]
    cases h0 : tierFails (w.tier 0) <;> cases h1 : tierFails (w.tier 1) <;>
      cases h2 : tierFails (w.tier 2) <;> cases h3 : tierFails (w.tier 3) <;>
      simp [tierStatuses, qualities, h0, h1, h2, h3]

/-! ## Progress is monotone (C5) -/

/-- C5: in every run the progress values written, in order, are
non-decreasing and the last one is 0 or 100; it is 100 whenever the download
succeeded, whatever the tiers did. -/
theorem progress_monotone (cfg : Config) (w : World) (event : VideoUploadEvent) :
    List.Sorted (· ≤ ·)
      ((statusesWritten (ProcessVideo cfg w event).1).map ProcessingStatus.Progress) ∧
    (((statusesWritten (ProcessVideo cfg w event).1).map ProcessingStatus.Progress).getLast?
        = some 0 ∨
      ((statusesWritten (ProcessVideo cfg w event).1).map ProcessingStatus.Progress).getLast?
        = some 100) ∧
    (w.mkdirErr = none → w.downloadErr = none →
      ((statusesWritten (ProcessVideo cfg w event).1).map ProcessingStatus.Progress).getLast?
        = some 100) := by
  cases hm : w.mkdirErr with
  | some e =>
    rw [ProcessVideo_mkdir_fails cfg w event e hm]
    simp [statusesWritten_append, statusesWritten_updateStatus, statusesWritten]
  | none =>
    cases hd : w.downloadErr with
    | some e =>
      rw [ProcessVideo_download_fails cfg w event e hm hd]
      simp [statusesWritten_append, statusesWritten_updateStatus, statusesWritten]
    | none =>
      rw [ProcessVideo_statuses cfg w event hm hd]
      cases h0 : tierFails (w.tier 0) <;> cases h1 : tierFails (w.tier 1) <;>
        cases h2 : tierFails (w.tier 2) <;> cases h3 : tierFails (w.tier 3) <;>
        simp [tierStatuses, qualities, h0, h1, h2, h3]

theorem progress_monotone_witness :
    ((statusesWritten (ProcessVideo cfgDefault worldAllTiersFail eventV1).1).map
      ProcessingStatus.Progress).getLast? = some 100 :=
  (progress_monotone cfgDefault worldAllTiersFail eventV1).2.2 rfl rfl

/-! ## A failed download aborts the run (C6) -/

/-- C6: when the source download fails with error `e`, `ProcessVideo` returns
`e`, the last status written is `failed` with progress 0 and the message
"Failed to download video: " followed by the text of `e`, no tier is
attempted, and no Segment record is persisted. -/
theorem download_failure_aborts (cfg : Config) (w : World) (event : VideoUploadEvent)
    (e : String) (hm : w.mkdirErr = none) (hd : w.downloadErr = some e) :
    (ProcessVideo cfg w event).2 = Result.err e ∧
    (statusesWritten (ProcessVideo cfg w event).1).getLast? =
      some { VideoID := event.VideoID, Status := "failed", Progress := 0,
             Message := "Failed to download video: " ++ e } ∧
    tiersAttempted (ProcessVideo cfg w event).1 = [] ∧
    (∀ x ∈ (ProcessVideo cfg w event).1, ∀ a q b c, x ≠ Effect.ffmpeg a q b c) ∧
    segmentsPersisted (ProcessVideo cfg w event).1 = [] := by
  rw [ProcessVideo_download_fails cfg w event e hm hd]
  refine ⟨rfl, ?_, ?_, ?_, ?_⟩
  · simp [statusesWritten_append, statusesWritten_updateStatus, statusesWritten]
  · simp [tiersAttempted_append, tiersAttempted, updateStatus]
  · simp [updateStatus]
  · simp [segmentsPersisted_append, segmentsPersisted, updateStatus]

theorem download_failure_aborts_witness :
    (ProcessVideo cfgDefault worldDownloadFails eventV1).2 =
        Result.err "failed to download from S3: NoSuchKey" ∧
    (statusesWritten (ProcessVideo cfgDefault worldDownloadFails eventV1).1).getLast? =
      some { VideoID := "v1", Status := "failed", Progress := 0,
             Message := "Failed to download video: failed to download from S3: NoSuchKey" } :=
  ⟨(download_failure_aborts cfgDefault worldDownloadFails eventV1 _ rfl rfl).1,
   (download_failure_aborts cfgDefault worldDownloadFails eventV1 _ rfl rfl).2.1⟩

/-! ## Failed tiers do not fail the run (C7) -/

/-- C7: in every run in which the download succeeds, whatever set of tiers
fails: every configured tier is attempted, in the configured order;
`ProcessVideo` returns nil; the last status written is `completed` with
progress 100; every Segment record persisted belongs to a tier whose
`transcodeAndSegment` returned nil; and the FFmpeg-failure counter is
incremented once for each tier whose `transcodeAndSegment` returned an error. -/
theorem tier_failures_not_fatal (cfg : Config) (w : World) (event : VideoUploadEvent)
    (hm : w.mkdirErr = none) (hd : w.downloadErr = none) :
    tiersAttempted (ProcessVideo cfg w event).1 = ["1080p", "720p", "480p", "360p"] ∧
    (ProcessVideo cfg w event).2 = Result.ok ∧
    (statusesWritten (ProcessVideo cfg w event).1).getLast? =
      some { VideoID := event.VideoID, Status := "completed", Progress := 100,
             Message := "Video processing completed" } ∧
    (∀ seg ∈ segmentsPersisted (ProcessVideo cfg w event).1,
      ∃ k q, qualities.get? k = some q ∧ seg.Quality = q.Resolution ∧
        tierResult cfg w event k q = Result.ok) ∧
    ffmpegFailures (ProcessVideo cfg w event).1 =
      (qualities.enum.filter fun kq => tierResult cfg w event kq.1 kq.2 ≠ Result.ok).length := by
  refine ⟨?_, ?_, ?_, ?_, ?_⟩
  · rw [ProcessVideo_downloaded cfg w event hm hd]
    simp only [tiersAttempted_append, tierLoop_tiers]
    simp [tiersAttempted, updateStatus, qualities]
  · rw [ProcessVideo_downloaded cfg w event hm hd]
  · rw [ProcessVideo_statuses cfg w event hm hd, ← List.cons_append, ← List.cons_append]
    exact List.getLast?_concat _
  · intro seg hseg
    rw [ProcessVideo_downloaded cfg w event hm hd] at hseg
    simp only [segmentsPersisted_append] at hseg
    have hseg' : seg ∈ segmentsPersisted (tierLoop cfg w event.VideoID
        (joinPath [cfg.TempDir, event.VideoID, event.FileName]) qualities.length 0 qualities).1 := by
      simpa [segmentsPersisted, updateStatus] using hseg
    obtain ⟨k, q, hq, hf, hmem⟩ := tierLoop_segments _ _ _ _ _ _ _ _ hseg'
    rw [Nat.zero_add] at hf hmem
    refine ⟨k, q, hq, ?_, (transcodeAndSegment_ok_iff _ _ _ _ _).2 hf⟩
    rw [transcodeAndSegment_segments, hf] at hmem
    exact (segmentLoop_records _ _ _ _ _ _ hmem).2.2.1
  · have key : ∀ k q, decide (tierResult cfg w event k q ≠ Result.ok) = tierFails (w.tier k) := by
      intro k q
      have h := transcodeAndSegment_ok_iff cfg (w.tier k) event.VideoID
        (joinPath [cfg.TempDir, event.VideoID, event.FileName]) q
      unfold tierResult
      cases hf : tierFails (w.tier k)
      · simp [h.2 hf]
      · have : ¬ (transcodeAndSegment cfg (w.tier k) event.VideoID
            (joinPath [cfg.TempDir, event.VideoID, event.FileName]) q).2 = Result.ok := by
          intro hok
          rw [h.1 hok] at hf
          cases hf
        simp [this]
    rw [ProcessVideo_downloaded cfg w event hm hd]
    simp only [ffmpegFailures_append, tierLoop_failures, key]
    cases h0 : tierFails (w.tier 0) <;> cases h1 : tierFails (w.tier 1) <;>
      cases h2 : tierFails (w.tier 2) <;> cases h3 : tierFails (w.tier 3) <;>
      simp [ffmpegFailures, updateStatus, qualities, List.range', List.enum, List.enumFrom,
        h0, h1, h2, h3]

/-- The failure counter counts every error of `transcodeAndSegment`, not only
those of the transcoder: in this run no tier starts the transcoder and the
counter is incremented four times. -/
theorem failure_counter_counts_mkdir_errors :
    ffmpegFailures (ProcessVideo cfgDefault worldOutputDirsFail
      { eventV1 with FileName := "" }).1 = 4 ∧
    (ProcessVideo cfgDefault worldOutputDirsFail { eventV1 with FileName := "" }).1.all
      (fun x => match x with
        | Effect.ffmpeg _ _ _ _ => false
        | _ => true) = true := by
  constructor <;> rfl

theorem tier_failures_not_fatal_witness :
    (ProcessVideo cfgDefault worldAllTiersFail eventV1).2 = Result.ok ∧
    ffmpegFailures (ProcessVideo cfgDefault worldAllTiersFail eventV1).1 = 4 ∧
    segmentsPersisted (ProcessVideo cfgDefault worldAllTiersFail eventV1).1 = [] :=
  ⟨(tier_failures_not_fatal cfgDefault worldAllTiersFail eventV1 rfl rfl).2.1,
   by rw [(tier_failures_not_fatal cfgDefault worldAllTiersFail eventV1 rfl rfl).2.2.2.2]; rfl,
   by rfl⟩

/-! ## Decimal formatting is injective -/

theorem digitChar_value (d : Nat) (h : d < 10) : (Nat.digitChar d).toNat - 48 = d := by
  interval_cases d <;> rfl

theorem toDigitsCore_append (fuel n : Nat) (acc : List Char) :
    Nat.toDigitsCore 10 fuel n acc = Nat.toDigitsCore 10 fuel n [] ++ acc := by
  induction fuel generalizing n acc with
  | zero => simp [Nat.toDigitsCore]
  | succ fuel ih =>
    simp only [Nat.toDigitsCore]
    split
    · simp
    · rw [ih (n / 10) (Nat.digitChar (n % 10) :: acc), ih (n / 10) [Nat.digitChar (n % 10)]]
      simp

theorem decimalValue_append_singleton (l : List Char) (c : Char) :
    decimalValue (l ++ [c]) = 10 * decimalValue l + (c.toNat - 48) := by
  simp [decimalValue, List.foldl_append]

theorem decimalValue_toDigitsCore (fuel n : Nat) (h : n < fuel) :
    decimalValue (Nat.toDigitsCore 10 fuel n []) = n := by
  induction fuel generalizing n with
  | zero => omega
  | succ fuel ih =>
    simp only [Nat.toDigitsCore]
    split
    · rename_i h0
      have hn : n < 10 := by omega
      simp [decimalValue, digitChar_value (n % 10) (Nat.mod_lt _ (by decide))]
      omega
    · rename_i h0
      rw [toDigitsCore_append, decimalValue_append_singleton, ih (n / 10) (by omega),
        digitChar_value (n % 10) (Nat.mod_lt _ (by decide))]
      omega

theorem decimalValue_zeros (k : Nat) (l : List Char) :
    decimalValue (List.replicate k '0' ++ l) = decimalValue l := by
  induction k with
  | zero => rfl
  | succ k ih =>
    have h : decimalValue ('0' :: (List.replicate k '0' ++ l)) =
        decimalValue (List.replicate k '0' ++ l) := by
      simp [decimalValue]
    simpa [List.replicate_succ] using h.trans ih

theorem decimalValue_pad3 (i : Nat) : decimalValue (pad3 i) = i := by
  unfold pad3
  simp only [decimalValue_zeros]
  exact decimalValue_toDigitsCore (i + 1) i (Nat.lt_succ_self i)

theorem pad3_injective (i j : Nat) (h : pad3 i = pad3 j) : i = j := by
  rw [← decimalValue_pad3 i, ← decimalValue_pad3 j, h]

/-! ## Object keys (C9) -/

theorem pad3_length (i : Nat) : 3 ≤ (pad3 i).length := by
  unfold pad3
  simp only [List.length_append, List.length_replicate]
  omega

theorem segmentKey_data (v r : String) (i : Nat) :
    (segmentKey v r i).data =
      "videos/".data ++ (v.data ++ ("/".data ++ (r.data ++ ("/segment_".data ++ (pad3 i ++ ".ts".data))))) := by
  simp [segmentKey, String.data_append, List.append_assoc]

theorem playlistKey_data (v r : String) :
    (playlistKey v r).data =
      "videos/".data ++ (v.data ++ ("/".data ++ (r.data ++ "/playlist.m3u8".data))) := by
  simp [playlistKey, String.data_append, List.append_assoc]

theorem segmentKey_ne_playlistKey (v r v' r' : String) (i : Nat) :
    segmentKey v r i ≠ playlistKey v' r' := by
  intro h
  have hd := congrArg (fun s => s.data.reverse.head?) h
  simp [segmentKey_data, playlistKey_data] at hd

theorem label_cases (r : String) (h : r ∈ qualities.map VideoQuality.Resolution) :
    r = "1080p" ∨ r = "720p" ∨ r = "480p" ∨ r = "360p" := by
  simpa [qualities] using h

theorem segmentKey_injective (v r1 r2 : String) (i1 i2 : Nat)
    (h1 : r1 ∈ qualities.map VideoQuality.Resolution)
    (h2 : r2 ∈ qualities.map VideoQuality.Resolution)
    (h : segmentKey v r1 i1 = segmentKey v r2 i2) : r1 = r2 ∧ i1 = i2 := by
  have hd := congrArg String.data h
  rw [segmentKey_data, segmentKey_data] at hd
  have hd2 := List.append_cancel_left (List.append_cancel_left (List.append_cancel_left hd))
  have a1 : "1080p".data = ['1', '0', '8', '0', 'p'] := rfl
  have a2 : "720p".data = ['7', '2', '0', 'p'] := rfl
  have a3 : "480p".data = ['4', '8', '0', 'p'] := rfl
  have a4 : "360p".data = ['3', '6', '0', 'p'] := rfl
  have same : ∀ r : String, r.data ++ ("/segment_".data ++ (pad3 i1 ++ ".ts".data)) =
      r.data ++ ("/segment_".data ++ (pad3 i2 ++ ".ts".data)) → i1 = i2 := by
    intro r hr
    exact pad3_injective _ _
      (List.append_cancel_right (List.append_cancel_left (List.append_cancel_left hr)))
  rcases label_cases r1 h1 with rfl | rfl | rfl | rfl <;>
    rcases label_cases r2 h2 with rfl | rfl | rfl | rfl <;>
    first
      | exact ⟨rfl, same _ hd2⟩
      | (exfalso; simp [a1, a2, a3, a4] at hd2)

/-- C9: the segment key is "videos/{video_id}/{resolution}/segment_{seq}.ts"
with the sequence number in decimal, zero-padded to at least three digits; for
a fixed video and configured tier labels two segment keys are equal only if
label and sequence number are equal; no segment key equals a manifest key; and
the records `transcodeAndSegment` persists carry this key for their own
sequence number. -/
theorem segment_keys_collision_free (videoID r1 r2 : String) (i1 i2 : Nat)
    (h1 : r1 ∈ qualities.map VideoQuality.Resolution)
    (h2 : r2 ∈ qualities.map VideoQuality.Resolution) :
    segmentKey videoID r1 i1 =
      "videos/" ++ videoID ++ "/" ++ r1 ++ "/segment_" ++ String.mk (pad3 i1) ++ ".ts" ∧
    3 ≤ (pad3 i1).length ∧ decimalValue (pad3 i1) = i1 ∧
    (segmentKey videoID r1 i1 = segmentKey videoID r2 i2 → r1 = r2 ∧ i1 = i2) ∧
    (∀ v r, segmentKey videoID r1 i1 ≠ playlistKey v r) ∧
    (∀ cfg tw inputPath q seg,
      seg ∈ segmentsPersisted (transcodeAndSegment cfg tw videoID inputPath q).1 →
        seg.S3Key = segmentKey videoID q.Resolution seg.Sequence) := by
  refine ⟨rfl, pad3_length i1, decimalValue_pad3 i1, segmentKey_injective videoID r1 r2 i1 i2 h1 h2,
    fun v r => segmentKey_ne_playlistKey videoID r1 v r i1, ?_⟩
  intro cfg tw inputPath q seg hseg
  rw [transcodeAndSegment_segments] at hseg
  cases hf : tierFails tw
  · rw [hf] at hseg
    exact (segmentLoop_records _ _ _ _ _ _ hseg).2.2.2
  · rw [hf] at hseg
    simp at hseg

theorem segment_keys_collision_free_witness :
    segmentKey "v1" "1080p" 7 = "videos/v1/1080p/segment_007.ts" ∧
    (segmentKey "v1" "1080p" 7 = segmentKey "v1" "720p" 7 → "1080p" = "720p" ∧ 7 = 7) := by
  have h := segment_keys_collision_free "v1" "1080p" "720p" 7 7 (by decide) (by decide)
  exact ⟨h.1.trans (by rfl), h.2.2.2.1⟩

/-! ## Sequence numbers within a tier (C4) -/

/-- C4, as stated, fails: the transcoder produced two segment files, the
tier returns nil, the upload of the first file fails, and the only record
persisted has sequence number 1, so the sequence numbers are not {0, 1}. -/
theorem sequence_contiguity_counterexample :
    (Glob (joinPath [cfgDefault.TempDir, "v1", "1080p"]) tierFirstUploadFails.entries
      tierFirstUploadFails.matched).length = 2 ∧
    (transcodeAndSegment cfgDefault tierFirstUploadFails "v1" "/tmp/video-processing/v1/a.mp4"
      { Resolution := "1080p", Bitrate := "5000k", Codec := "libx264" }).2 = Result.ok ∧
    (segmentsPersisted (transcodeAndSegment cfgDefault tierFirstUploadFails "v1"
      "/tmp/video-processing/v1/a.mp4"
      { Resolution := "1080p", Bitrate := "5000k", Codec := "libx264" }).1).map
        VideoSegment.Sequence = [1] := by
  refine ⟨by rfl, by rfl, by rfl⟩

/-- The sequence numbers of the records a tier persists are, in order, the
positions of the listing whose upload succeeded. -/
theorem sequence_numbers_of_listed (cfg : Config) (tw : TierWorld) (videoID inputPath : String)
    (quality : VideoQuality) (hok : tierFails tw = false) :
    (segmentsPersisted (transcodeAndSegment cfg tw videoID inputPath quality).1).map
        VideoSegment.Sequence =
      (List.range (Glob (joinPath [cfg.TempDir, videoID, quality.Resolution]) tw.entries
        tw.matched).length).filter (fun i => (tw.uploadErr i).isNone) := by
  rw [transcodeAndSegment_segments, hok]
  simp only [Bool.false_eq_true, if_false]
  rw [segmentLoop_sequences, List.range_eq_range']

theorem Glob_of_literal (dir : String) (entries : List String)
    (matched : List (String × List String)) (hm : hasMeta dir = false) :
    Glob dir entries matched = globDir dir entries := by
  unfold Glob
  rw [hm]
  rfl

theorem globDir_length (dir : String) (entries : List String) :
    (globDir dir entries).length =
      (entries.filter fun n => ".ts".data.isSuffixOf n.data).length := by
  unfold globDir
  rw [List.length_map]
  exact (List.perm_insertionSort strLE _).length_eq

/-- C4, amended: for a tier whose working directory path has no glob
metacharacter and whose transcode leaves k segment files (names ending in
".ts") there, the sequence numbers of the records `transcodeAndSegment`
persists are, in order, exactly the positions in 0..k-1 whose upload
succeeded: they are below k, strictly increasing and without duplicates, and
they are exactly 0..k-1 when every upload succeeds. -/
theorem sequence_numbers_of_uploaded (cfg : Config) (tw : TierWorld) (videoID inputPath : String)
    (quality : VideoQuality) (k : Nat) (hok : tierFails tw = false)
    (hmeta : hasMeta (joinPath [cfg.TempDir, videoID, quality.Resolution]) = false)
    (hk : (tw.entries.filter fun n => ".ts".data.isSuffixOf n.data).length = k) :
    (Glob (joinPath [cfg.TempDir, videoID, quality.Resolution]) tw.entries tw.matched).length = k ∧
    (segmentsPersisted (transcodeAndSegment cfg tw videoID inputPath quality).1).map
        VideoSegment.Sequence =
      (List.range k).filter (fun i => (tw.uploadErr i).isNone) ∧
    (∀ s ∈ (segmentsPersisted (transcodeAndSegment cfg tw videoID inputPath quality).1).map
        VideoSegment.Sequence, s < k) ∧
    List.Sorted (· < ·) ((segmentsPersisted
      (transcodeAndSegment cfg tw videoID inputPath quality).1).map VideoSegment.Sequence) ∧
    ((segmentsPersisted (transcodeAndSegment cfg tw videoID inputPath quality).1).map
        VideoSegment.Sequence).Nodup ∧
    ((∀ i, i < k → tw.uploadErr i = none) →
      (segmentsPersisted (transcodeAndSegment cfg tw videoID inputPath quality).1).map
        VideoSegment.Sequence = List.range k) := by
  have hlen : (Glob (joinPath [cfg.TempDir, videoID, quality.Resolution]) tw.entries
      tw.matched).length = k := by
    rw [Glob_of_literal _ _ _ hmeta, globDir_length, hk]
  have hseq := sequence_numbers_of_listed cfg tw videoID inputPath quality hok
  rw [hlen] at hseq
  have hsorted : List.Sorted (· < ·)
      ((List.range k).filter (fun i => (tw.uploadErr i).isNone)) :=
    (List.sorted_lt_range _).filter _
  rw [hseq]
  refine ⟨hlen, rfl, ?_, hsorted, hsorted.nodup, ?_⟩
  · intro s hs
    exact List.mem_range.1 (List.mem_filter.1 hs).1
  · intro hall
    apply List.filter_eq_self.2
    intro i hi
    simp [hall i (List.mem_range.1 hi)]

theorem sequence_numbers_of_uploaded_witness :
    (segmentsPersisted (transcodeAndSegment cfgDefault tierAllOk "v1"
      "/tmp/video-processing/v1/a.mp4"
      { Resolution := "1080p", Bitrate := "5000k", Codec := "libx264" }).1).map
        VideoSegment.Sequence = [0, 1] :=
  ((sequence_numbers_of_uploaded cfgDefault tierAllOk "v1" "/tmp/video-processing/v1/a.mp4"
    { Resolution := "1080p", Bitrate := "5000k", Codec := "libx264" } 2 rfl (by decide)
    (by decide)).2.1).trans (by rfl)

/-! ## Node assignment depends on the identifier only (C10) -/

/-- C10: every Segment record `transcodeAndSegment` persists has as NodeID the
result of `selectStorageNode` on its own SegmentID; hence two records with the
same SegmentID, from whatever video, tier, position or call, have the same
NodeID, and `selectStorageNode` gives equal results on equal identifiers. -/
theorem node_assignment_by_identifier (cfg cfg' : Config) (tw tw' : TierWorld)
    (videoID videoID' inputPath inputPath' : String) (quality quality' : VideoQuality)
    (seg seg' : VideoSegment)
    (h : seg ∈ segmentsPersisted (transcodeAndSegment cfg tw videoID inputPath quality).1)
    (h' : seg' ∈ segmentsPersisted
      (transcodeAndSegment cfg' tw' videoID' inputPath' quality').1) :
    selectStorageNode seg.SegmentID = some seg.NodeID ∧
    (seg.SegmentID = seg'.SegmentID → seg.NodeID = seg'.NodeID) ∧
    (∀ s t : String, s = t → selectStorageNode s = selectStorageNode t) := by
  have key : ∀ (cfg : Config) (tw : TierWorld) (videoID inputPath : String)
      (quality : VideoQuality) (seg : VideoSegment),
      seg ∈ segmentsPersisted (transcodeAndSegment cfg tw videoID inputPath quality).1 →
      selectStorageNode seg.SegmentID = some seg.NodeID := by
    intro cfg tw videoID inputPath quality seg hseg
    rw [transcodeAndSegment_segments] at hseg
    cases hf : tierFails tw
    · rw [hf] at hseg
      exact (segmentLoop_records _ _ _ _ _ _ hseg).1
    · rw [hf] at hseg
      simp at hseg
  have k1 := key _ _ _ _ _ _ h
  have k2 := key _ _ _ _ _ _ h'
  refine ⟨k1, ?_, fun s t hst => by rw [hst]⟩
  intro hid
  rw [hid, k2] at k1
  exact (Option.some.inj k1).symm

theorem node_assignment_by_identifier_witness :
    selectStorageNode "00000000-0000-0000-0000-000000000000" = some "node-1" :=
  (node_assignment_by_identifier cfgDefault cfgDefault tierAllOk tierAllOk "v1" "v1"
    "/tmp/video-processing/v1/a.mp4" "/tmp/video-processing/v1/a.mp4"
    { Resolution := "1080p", Bitrate := "5000k", Codec := "libx264" }
    { Resolution := "1080p", Bitrate := "5000k", Codec := "libx264" }
    { SegmentID := "00000000-0000-0000-0000-000000000000", VideoID := "v1", Quality := "1080p",
      Sequence := 0, S3Key := "videos/v1/1080p/segment_000.ts", NodeID := "node-1" }
    { SegmentID := "00000000-0000-0000-0000-000000000000", VideoID := "v1", Quality := "1080p",
      Sequence := 1, S3Key := "videos/v1/1080p/segment_001.ts", NodeID := "node-1" }
    (by decide) (by decide)).1

/-! ## The lexical order of file names -/

theorem lexLE_refl (a : List Char) : lexLE a a = true := by
  induction a with
  | nil => rfl
  | cons c a ih => simp [lexLE, ih]

theorem lexLE_total (a b : List Char) : lexLE a b = true ∨ lexLE b a = true := by
  induction a generalizing b with
  | nil => exact Or.inl rfl
  | cons c a ih =>
    cases b with
    | nil => exact Or.inr rfl
    | cons d b =>
      simp only [lexLE]
      rcases Nat.lt_trichotomy c.toNat d.toNat with h | h | h
      · simp [h]
      · simp [h, ih b]
      · simp [h, Nat.lt_asymm h]

theorem lexLE_trans (a b c : List Char) (hab : lexLE a b = true) (hbc : lexLE b c = true) :
    lexLE a c = true := by
  induction a generalizing b c with
  | nil => rfl
  | cons x a ih =>
    cases b with
    | nil => simp [lexLE] at hab
    | cons y b =>
      cases c with
      | nil => simp [lexLE] at hbc
      | cons z c =>
        simp only [lexLE] at hab hbc ⊢
        by_cases hxy : x.toNat < y.toNat
        · by_cases hyz : y.toNat < z.toNat
          · simp [Nat.lt_trans hxy hyz]
          · by_cases hzy : z.toNat < y.toNat
            · simp [hyz, hzy] at hbc
            · have : y.toNat = z.toNat := by omega
              simp [← this, hxy]
        · by_cases hyx : y.toNat < x.toNat
          · simp [hxy, hyx] at hab
          · have hxy' : x.toNat = y.toNat := by omega
            simp only [hxy, hyx, if_false] at hab
            by_cases hyz : y.toNat < z.toNat
            · simp [hxy', hyz]
            · by_cases hzy : z.toNat < y.toNat
              · simp [hyz, hzy] at hbc
              · simp only [hyz, hzy, if_false] at hbc
                have : ¬ x.toNat < z.toNat := by omega
                have : ¬ z.toNat < x.toNat := by omega
                simp [*, ih b c hab hbc]

theorem char_eq_of_toNat_eq (c d : Char) (h : c.toNat = d.toNat) : c = d := by
  apply Char.ext
  apply UInt32.ext
  exact h

theorem lexLE_antisymm (a b : List Char) (hab : lexLE a b = true) (hba : lexLE b a = true) :
    a = b := by
  induction a generalizing b with
  | nil =>
    cases b with
    | nil => rfl
    | cons d b => simp [lexLE] at hba
  | cons c a ih =>
    cases b with
    | nil => simp [lexLE] at hab
    | cons d b =>
      simp only [lexLE] at hab hba
      by_cases hcd : c.toNat < d.toNat
      · simp [hcd, Nat.lt_asymm hcd] at hba
      · by_cases hdc : d.toNat < c.toNat
        · simp [hcd, hdc] at hab
        · simp only [hcd, hdc, if_false] at hab hba
          have e : c = d := char_eq_of_toNat_eq c d (by omega)
          rw [e, ih b hab hba]

theorem strLE_isTotal : IsTotal String strLE := ⟨fun a b => lexLE_total a.data b.data⟩

theorem strLE_isTrans : IsTrans String strLE :=
  ⟨fun a b c hab hbc => lexLE_trans a.data b.data c.data hab hbc⟩

theorem strLE_isAntisymm : IsAntisymm String strLE :=
  ⟨fun a b hab hba => String.ext (lexLE_antisymm a.data b.data hab hba)⟩

/-- Sorting is determined by its result being ordered and a rearrangement of
its input. -/
theorem insertionSort_eq_of_sorted_perm (l s : List String) (hp : s.Perm l)
    (hs : List.Sorted strLE s) : l.insertionSort strLE = s :=
  haveI := strLE_isTotal
  haveI := strLE_isTrans
  haveI := strLE_isAntisymm
  List.eq_of_perm_of_sorted ((List.perm_insertionSort strLE l).trans hp.symm)
    (List.sorted_insertionSort strLE l) hs

theorem lexLE_append_left (p x y : List Char) : lexLE (p ++ x) (p ++ y) = lexLE x y := by
  induction p with
  | nil => rfl
  | cons c p ih => simp [lexLE, ih]

theorem lexLE_append_right (a b s : List Char) (h : a.length = b.length) :
    lexLE (a ++ s) (b ++ s) = lexLE a b := by
  induction a generalizing b with
  | nil =>
    cases b with
    | nil => simp [lexLE_refl, lexLE]
    | cons d b => simp at h
  | cons c a ih =>
    cases b with
    | nil => simp at h
    | cons d b =>
      simp only [List.length_cons, Nat.add_right_cancel_iff] at h
      simp [lexLE, ih b h]

/-! ## Fixed-width decimal numbers: lexical order is numeric order -/

theorem foldl_decimal (l : List Char) (a : Nat) :
    l.foldl (fun a c => 10 * a + (c.toNat - 48)) a =
      a * 10 ^ l.length + l.foldl (fun a c => 10 * a + (c.toNat - 48)) 0 := by
  induction l generalizing a with
  | nil => simp
  | cons c l ih =>
    simp only [List.foldl_cons, List.length_cons]
    rw [ih (10 * a + (c.toNat - 48)), ih (10 * 0 + (c.toNat - 48))]
    ring

theorem decimalValue_cons (c : Char) (l : List Char) :
    decimalValue (c :: l) = (c.toNat - 48) * 10 ^ l.length + decimalValue l := by
  unfold decimalValue
  rw [List.foldl_cons, foldl_decimal]
  simp

theorem decimalValue_lt (l : List Char) (h : ∀ c ∈ l, isDecimalDigit c = true) :
    decimalValue l < 10 ^ l.length := by
  induction l with
  | nil => simp [decimalValue]
  | cons c l ih =>
    have hc := h c (List.mem_cons_self _ _)
    have hl := ih fun d hd => h d (List.mem_cons_of_mem _ hd)
    simp only [isDecimalDigit, Bool.and_eq_true, decide_eq_true_eq] at hc
    rw [decimalValue_cons, List.length_cons, pow_succ]
    have h9 : (c.toNat - 48) * 10 ^ l.length ≤ 9 * 10 ^ l.length :=
      Nat.mul_le_mul_right _ (by omega)
    omega

theorem lexLE_iff_le (a b : List Char) (hlen : a.length = b.length)
    (ha : ∀ c ∈ a, isDecimalDigit c = true) (hb : ∀ c ∈ b, isDecimalDigit c = true) :
    lexLE a b = true ↔ decimalValue a ≤ decimalValue b := by
  induction a generalizing b with
  | nil =>
    cases b with
    | nil => simp [lexLE]
    | cons d b => simp at hlen
  | cons c a ih =>
    cases b with
    | nil => simp at hlen
    | cons d b =>
      simp only [List.length_cons, Nat.add_right_cancel_iff] at hlen
      have hc := ha c (List.mem_cons_self _ _)
      have hd := hb d (List.mem_cons_self _ _)
      simp only [isDecimalDigit, Bool.and_eq_true, decide_eq_true_eq] at hc hd
      have hA := decimalValue_lt a fun x hx => ha x (List.mem_cons_of_mem _ hx)
      have hB := decimalValue_lt b fun x hx => hb x (List.mem_cons_of_mem _ hx)
      have hrec := ih b hlen (fun x hx => ha x (List.mem_cons_of_mem _ hx))
        (fun x hx => hb x (List.mem_cons_of_mem _ hx))
      rw [decimalValue_cons, decimalValue_cons, ← hlen]
      rw [← hlen] at hB
      simp only [lexLE]
      by_cases hcd : c.toNat < d.toNat
      · have hm : (c.toNat - 48 + 1) * 10 ^ a.length ≤ (d.toNat - 48) * 10 ^ a.length :=
          Nat.mul_le_mul_right _ (by omega)
        rw [Nat.add_mul, Nat.one_mul] at hm
        simp only [hcd, if_true, true_iff]
        omega
      · by_cases hdc : d.toNat < c.toNat
        · have hm : (d.toNat - 48 + 1) * 10 ^ a.length ≤ (c.toNat - 48) * 10 ^ a.length :=
            Nat.mul_le_mul_right _ (by omega)
          rw [Nat.add_mul, Nat.one_mul] at hm
          simp only [hcd, hdc, if_false, if_true, Bool.false_eq_true, false_iff]
          omega
        · have e : c.toNat = d.toNat := by omega
          simp only [e, Nat.lt_irrefl, if_false, Nat.add_le_add_iff_left]
          exact hrec

theorem digitChar_isDecimalDigit (d : Nat) (h : d < 10) :
    isDecimalDigit (Nat.digitChar d) = true := by
  interval_cases d <;> rfl

theorem toDigitsCore_digits (fuel n : Nat) (acc : List Char)
    (hacc : ∀ c ∈ acc, isDecimalDigit c = true) :
    ∀ c ∈ Nat.toDigitsCore 10 fuel n acc, isDecimalDigit c = true := by
  induction fuel generalizing n acc with
  | zero => simpa [Nat.toDigitsCore] using hacc
  | succ fuel ih =>
    have hd := digitChar_isDecimalDigit (n % 10) (Nat.mod_lt _ (by decide))
    have hacc' : ∀ c ∈ Nat.digitChar (n % 10) :: acc, isDecimalDigit c = true := by
      intro c hc
      rcases List.mem_cons.1 hc with rfl | hc
      · exact hd
      · exact hacc c hc
    simp only [Nat.toDigitsCore]
    split
    · exact hacc'
    · exact ih (n / 10) _ hacc'

theorem pad3_digits (i : Nat) : ∀ c ∈ pad3 i, isDecimalDigit c = true := by
  intro c hc
  unfold pad3 at hc
  rcases List.mem_append.1 hc with h | h
  · rw [(List.mem_replicate.1 h).2]
    rfl
  · exact toDigitsCore_digits (i + 1) i [] (by simp) c h

theorem pad3_length_eq (i : Nat) (h : i < 1000) : (pad3 i).length = 3 := by
  have hl : (Nat.toDigits 10 i).length ≤ 3 :=
    Nat.toDigitsCore_length 10 (by decide) (i + 1) i 3 (by simpa using h) (by decide)
  unfold pad3
  simp only [List.length_append, List.length_replicate]
  omega

theorem segmentFileName_data (i : Nat) :
    (segmentFileName i).data = "segment_".data ++ (pad3 i ++ ".ts".data) := by
  simp [segmentFileName, String.data_append, List.append_assoc]

/-- Up to 999, the zero-padded names sort in numeric order. -/
theorem strLE_segmentFileName (i j : Nat) (hi : i < 1000) (hj : j < 1000) :
    strLE (segmentFileName i) (segmentFileName j) ↔ i ≤ j := by
  unfold strLE
  rw [segmentFileName_data, segmentFileName_data, lexLE_append_left,
    lexLE_append_right _ _ _ ((pad3_length_eq i hi).trans (pad3_length_eq j hj).symm),
    lexLE_iff_le _ _ ((pad3_length_eq i hi).trans (pad3_length_eq j hj).symm)
      (pad3_digits i) (pad3_digits j), decimalValue_pad3, decimalValue_pad3]

/-! ## The order of the listed segment files (C8) -/

theorem isTs_segmentFileName (i : Nat) :
    ".ts".data.isSuffixOf (segmentFileName i).data = true := by
  rw [List.isSuffixOf_iff_suffix, segmentFileName_data]
  exact (List.suffix_append _ _).trans (List.suffix_append _ _)

theorem filter_ts_segments (ns : List Nat) :
    (ns.map segmentFileName).filter (fun n => ".ts".data.isSuffixOf n.data) =
      ns.map segmentFileName := by
  apply List.filter_eq_self.2
  intro n hn
  obtain ⟨i, _, rfl⟩ := List.mem_map.1 hn
  exact isTs_segmentFileName i

theorem Glob_eq_of_sorted (dir : String) (entries s : List String)
    (matched : List (String × List String)) (hm : hasMeta dir = false)
    (hp : s.Perm (entries.filter fun n => ".ts".data.isSuffixOf n.data))
    (hs : List.Sorted strLE s) :
    Glob dir entries matched = s.map fun n => joinPath [dir, n] := by
  rw [Glob_of_literal dir entries matched hm]
  unfold globDir
  rw [insertionSort_eq_of_sorted_perm _ s hp hs]

theorem sorted_segments (s n : Nat) (h : s + n ≤ 1000) :
    List.Sorted strLE ((List.range' s n).map segmentFileName) := by
  apply List.pairwise_map.2
  apply List.Pairwise.imp_of_mem _ (List.pairwise_lt_range' s n)
  intro a b ha hb hab
  have ha' := (List.mem_range'_1.1 ha).2
  have hb' := (List.mem_range'_1.1 hb).2
  exact (strLE_segmentFileName a b (by omega) (by omega)).2 (Nat.le_of_lt hab)

/-- With at most 1000 segment files (numbers 0..999) in a directory whose path
has no metacharacter, the listing is in numeric order: the file at position
`i` is the file numbered `i`. -/
theorem Glob_numeric_order (dir : String) (k : Nat) (hk : k ≤ 1000) (entries : List String)
    (matched : List (String × List String)) (hm : hasMeta dir = false)
    (hp : entries.Perm ("playlist.m3u8" :: producedSegments k)) :
    Glob dir entries matched =
      (List.range k).map fun i => joinPath [dir, segmentFileName i] := by
  have hf : (producedSegments k).Perm (entries.filter fun n => ".ts".data.isSuffixOf n.data) := by
    have h1 := (hp.filter fun n => ".ts".data.isSuffixOf n.data).symm
    have h2 : ("playlist.m3u8" :: producedSegments k).filter
        (fun n => ".ts".data.isSuffixOf n.data) = producedSegments k := by
      rw [List.filter_cons_of_neg (by decide)]
      exact filter_ts_segments _
    rw [h2] at h1
    exact h1
  have hs : List.Sorted strLE (producedSegments k) := by
    unfold producedSegments
    rw [List.range_eq_range']
    exact sorted_segments 0 k (by omega)
  rw [Glob_eq_of_sorted dir entries _ matched hm hf hs]
  simp [producedSegments]

/-- With 1001 segment files the listing is no longer in numeric order: the file
numbered 1000 is listed between the files numbered 100 and 101. -/
theorem Glob_1001 (dir : String) (matched : List (String × List String))
    (hm : hasMeta dir = false) :
    Glob dir ("playlist.m3u8" :: producedSegments 1001) matched =
      ((List.range' 0 101).map segmentFileName ++
        segmentFileName 1000 :: (List.range' 101 899).map segmentFileName).map
          fun n => joinPath [dir, n] := by
  apply Glob_eq_of_sorted _ _ _ _ hm
  · rw [List.filter_cons_of_neg (by decide)]
    unfold producedSegments
    rw [filter_ts_segments]
    have e : List.range 1001 = List.range' 0 101 ++ (List.range' 101 899 ++ [1000]) := by
      rw [List.range_eq_range']
      have h1 : List.range' 0 1001 = List.range' 0 101 ++ List.range' (0 + 101) 900 :=
        (List.range'_append_1 0 101 900).symm
      have h2 : List.range' 101 900 = List.range' 101 899 ++ List.range' (101 + 899) 1 :=
        (List.range'_append_1 101 899 1).symm
      rw [h1, Nat.zero_add, h2]
      rfl
    rw [e, List.map_append, List.map_append]
    apply List.Perm.append_left
    exact @List.perm_append_comm _ [segmentFileName 1000]
      (List.map segmentFileName (List.range' 101 899))
  · have h100 : strLE (segmentFileName 100) (segmentFileName 1000) := by decide
    have h101 : strLE (segmentFileName 1000) (segmentFileName 101) := by decide
    have hB : ∀ b ∈ (List.range' 101 899).map segmentFileName,
        strLE (segmentFileName 101) b := by
      intro b hb
      obtain ⟨j, hj, rfl⟩ := List.mem_map.1 hb
      have := List.mem_range'_1.1 hj
      exact (strLE_segmentFileName 101 j (by omega) (by omega)).2 this.1
    have hA : ∀ a ∈ (List.range' 0 101).map segmentFileName,
        strLE a (segmentFileName 100) := by
      intro a ha
      obtain ⟨i, hi, rfl⟩ := List.mem_map.1 ha
      have := List.mem_range'_1.1 hi
      exact (strLE_segmentFileName i 100 (by omega) (by omega)).2 (by omega)
    apply List.pairwise_append.2
    refine ⟨sorted_segments 0 101 (by omega), ?_, ?_⟩
    · apply List.pairwise_cons.2
      exact ⟨fun b hb => lexLE_trans _ _ _ h101 (hB b hb), sorted_segments 101 899 (by omega)⟩
    · intro a ha b hb
      rcases List.mem_cons.1 hb with rfl | hb
      · exact lexLE_trans _ _ _ (hA a ha) h100
      · exact lexLE_trans _ _ _ (lexLE_trans _ _ _ (hA a ha) h100)
          (lexLE_trans _ _ _ h101 (hB b hb))

theorem segmentLoop_upload (tw : TierWorld) (videoID resolution : String)
    (files : List String) (i j : Nat) (f : String) (h : files.get? j = some f) :
    Effect.upload f (segmentKey videoID resolution (i + j)) ∈
      (segmentLoop tw videoID resolution i files).1 := by
  induction files generalizing i j with
  | nil => simp at h
  | cons f0 rest ih =>
    obtain ⟨n, _, hn⟩ := selectStorageNode_uuid (tw.uuid i)
    simp only [segmentLoop, segmentStep]
    cases j with
    | zero =>
      simp only [List.get?, Option.some.injEq] at h
      subst h
      cases hu : tw.uploadErr i <;> simp [hn]
    | succ j =>
      have hj : rest.get? j = some f := by simpa using h
      have hmem := ih (i + 1) j hj
      have e : i + (j + 1) = i + 1 + j := by omega
      rw [e]
      cases hu : tw.uploadErr i <;> simp [hn, hmem]

theorem transcodeAndSegment_upload (cfg : Config) (tw : TierWorld) (videoID inputPath : String)
    (quality : VideoQuality) (hok : tierFails tw = false) (j : Nat) (f : String)
    (h : (Glob (joinPath [cfg.TempDir, videoID, quality.Resolution]) tw.entries tw.matched).get? j = some f) :
    Effect.upload f (segmentKey videoID quality.Resolution j) ∈
      (transcodeAndSegment cfg tw videoID inputPath quality).1 := by
  have hmem := segmentLoop_upload tw videoID quality.Resolution _ 0 j f h
  rw [Nat.zero_add] at hmem
  unfold tierFails at hok
  unfold transcodeAndSegment
  cases h1 : tw.mkdirErr <;> cases h2 : tw.ffmpegErr <;> cases h3 : tw.globErr <;>
    simp [h1, h2, h3] at hok
  simp [segmentLoop_no_panic, hmem]

/-- C8 fails on the code for a video of 1001 segments: the tier returns nil,
the listing has the file numbered 1000 at position 101, and
`transcodeAndSegment` uploads that file as segment 101 and the file numbered
101 as segment 102. -/
theorem long_video_out_of_order :
    (transcodeAndSegment cfgDefault tierLongVideo "v1" "/tmp/video-processing/v1/a.mp4"
      { Resolution := "1080p", Bitrate := "5000k", Codec := "libx264" }).2 = Result.ok ∧
    (Glob "/tmp/video-processing/v1/1080p" tierLongVideo.entries tierLongVideo.matched).get? 101 =
      some "/tmp/video-processing/v1/1080p/segment_1000.ts" ∧
    Effect.upload "/tmp/video-processing/v1/1080p/segment_1000.ts"
        "videos/v1/1080p/segment_101.ts" ∈
      (transcodeAndSegment cfgDefault tierLongVideo "v1" "/tmp/video-processing/v1/a.mp4"
        { Resolution := "1080p", Bitrate := "5000k", Codec := "libx264" }).1 ∧
    Effect.upload "/tmp/video-processing/v1/1080p/segment_101.ts"
        "videos/v1/1080p/segment_102.ts" ∈
      (transcodeAndSegment cfgDefault tierLongVideo "v1" "/tmp/video-processing/v1/a.mp4"
        { Resolution := "1080p", Bitrate := "5000k", Codec := "libx264" }).1 := by
  have hg : Glob "/tmp/video-processing/v1/1080p" tierLongVideo.entries tierLongVideo.matched =
      ((List.range' 0 101).map segmentFileName ++
        segmentFileName 1000 :: (List.range' 101 899).map segmentFileName).map
          fun n => joinPath ["/tmp/video-processing/v1/1080p", n] :=
    Glob_1001 _ _ (by decide)
  have h101 : (Glob "/tmp/video-processing/v1/1080p" tierLongVideo.entries
      tierLongVideo.matched).get? 101 =
      some "/tmp/video-processing/v1/1080p/segment_1000.ts" := by
    rw [hg, List.get?_eq_getElem?, List.getElem?_map, List.getElem?_append_right (by simp)]
    simp only [List.length_map, List.length_range']
    decide
  have h102 : (Glob "/tmp/video-processing/v1/1080p" tierLongVideo.entries
      tierLongVideo.matched).get? 102 =
      some "/tmp/video-processing/v1/1080p/segment_101.ts" := by
    rw [hg, List.get?_eq_getElem?, List.getElem?_map, List.getElem?_append_right (by simp)]
    simp only [List.length_map, List.length_range']
    decide
  refine ⟨(transcodeAndSegment_ok_iff _ _ _ _ _).2 rfl, h101, ?_, ?_⟩
  · exact transcodeAndSegment_upload cfgDefault tierLongVideo "v1" _
      { Resolution := "1080p", Bitrate := "5000k", Codec := "libx264" } rfl 101 _ h101
  · exact transcodeAndSegment_upload cfgDefault tierLongVideo "v1" _
      { Resolution := "1080p", Bitrate := "5000k", Codec := "libx264" } rfl 102 _ h102

/-! ## Upload failures within a tier (C11) -/

theorem segmentLoop_put (tw : TierWorld) (videoID resolution : String)
    (files : List String) (i : Nat) (key : String) (seg : VideoSegment)
    (h : Effect.putSegment key seg ∈ (segmentLoop tw videoID resolution i files).1) :
    i ≤ seg.Sequence ∧ seg.Sequence < i + files.length ∧ tw.uploadErr seg.Sequence = none ∧
      seg.SegmentID = uuidString (tw.uuid seg.Sequence) ∧ key = "/segments/" ++ seg.SegmentID ∧
      seg.S3Key = segmentKey videoID resolution seg.Sequence := by
  induction files generalizing i with
  | nil => simp [segmentLoop] at h
  | cons f rest ih =>
    obtain ⟨n, _, hn⟩ := selectStorageNode_uuid (tw.uuid i)
    simp only [segmentLoop, segmentStep] at h
    have tail : Effect.putSegment key seg ∈ (segmentLoop tw videoID resolution (i + 1) rest).1 →
        i ≤ seg.Sequence ∧ seg.Sequence < i + (f :: rest).length ∧
        tw.uploadErr seg.Sequence = none ∧
        seg.SegmentID = uuidString (tw.uuid seg.Sequence) ∧ key = "/segments/" ++ seg.SegmentID ∧
        seg.S3Key = segmentKey videoID resolution seg.Sequence := by
      intro ht
      obtain ⟨h1, h2, h3⟩ := ih (i + 1) ht
      refine ⟨by omega, ?_, h3⟩
      simp only [List.length_cons]
      omega
    cases hu : tw.uploadErr i with
    | some e =>
      simp only [hu, List.mem_cons] at h
      rcases h with h | h
      · cases h
      · exact tail h
    | none =>
      simp only [hu, hn, List.mem_cons] at h
      rcases h with h | h | h | h
      · cases h
      · cases h
        refine ⟨Nat.le_refl _, ?_, hu, rfl, rfl, rfl⟩
        simp only [List.length_cons]
        omega
      · cases h
      · exact tail h

theorem segmentLoop_put_of_uploaded (tw : TierWorld) (videoID resolution : String)
    (files : List String) (i j : Nat) (hj : j < files.length)
    (hu : tw.uploadErr (i + j) = none) :
    ∃ seg, Effect.putSegment ("/segments/" ++ seg.SegmentID) seg ∈
        (segmentLoop tw videoID resolution i files).1 ∧ seg.Sequence = i + j := by
  induction files generalizing i j with
  | nil => simp at hj
  | cons f rest ih =>
    obtain ⟨n, _, hn⟩ := selectStorageNode_uuid (tw.uuid i)
    simp only [segmentLoop, segmentStep]
    cases j with
    | zero =>
      rw [Nat.add_zero] at hu
      refine ⟨{ SegmentID := uuidString (tw.uuid i), VideoID := videoID, Quality := resolution,
                Sequence := i, S3Key := segmentKey videoID resolution i, NodeID := n }, ?_, rfl⟩
      simp [hu, hn]
    | succ j =>
      have e : i + (j + 1) = i + 1 + j := by omega
      rw [e] at hu
      obtain ⟨seg, hmem, hseq⟩ := ih (i + 1) j (by simpa using hj) hu
      refine ⟨seg, ?_, by omega⟩
      cases hi : tw.uploadErr i <;> simp [hn, hmem]

/-- The effects of a tier that does not fail: the calls up to the listing, the
segment loop, then the manifest upload and the duration metric. -/
theorem transcodeAndSegment_trace (cfg : Config) (tw : TierWorld) (videoID inputPath : String)
    (quality : VideoQuality) (hok : tierFails tw = false) :
    transcodeAndSegment cfg tw videoID inputPath quality =
      ([Effect.enter videoID inputPath quality,
        Effect.mkdirAll (joinPath [cfg.TempDir, videoID, quality.Resolution]),
        Effect.ffmpeg inputPath quality
          (joinPath [joinPath [cfg.TempDir, videoID, quality.Resolution], "segment_%03d.ts"])
          (joinPath [joinPath [cfg.TempDir, videoID, quality.Resolution], "playlist.m3u8"]),
        Effect.glob (joinPath [joinPath [cfg.TempDir, videoID, quality.Resolution], "*.ts"])] ++
        (segmentLoop tw videoID quality.Resolution 0
          (Glob (joinPath [cfg.TempDir, videoID, quality.Resolution]) tw.entries tw.matched)).1 ++
        [Effect.upload
          (joinPath [joinPath [cfg.TempDir, videoID, quality.Resolution], "playlist.m3u8"])
          (playlistKey videoID quality.Resolution),
         Effect.observe (Metric.VideoProcessingDuration quality.Resolution)],
       Result.ok) := by
  unfold tierFails at hok
  unfold transcodeAndSegment
  cases h1 : tw.mkdirErr <;> cases h2 : tw.ffmpegErr <;> cases h3 : tw.globErr <;>
    simp [h1, h2, h3] at hok
  simp [segmentLoop_no_panic]

/-- For a tier that does not fail, and every pattern of upload outcomes:
`transcodeAndSegment` returns nil; every file of the listing is uploaded under
the key of its position; a Segment record with sequence number `i` is put if
and only if `i` is a position of the listing whose upload succeeded; every
record put is stored under "/segments/" followed by its SegmentID and carries
the key its file was uploaded under; and the manifest upload comes after all
of this, whatever its own outcome and that of the segment uploads. -/
theorem listed_files_handled (cfg : Config) (tw : TierWorld)
    (videoID inputPath : String) (quality : VideoQuality) (hok : tierFails tw = false) :
    (transcodeAndSegment cfg tw videoID inputPath quality).2 = Result.ok ∧
    (∀ i f, (Glob (joinPath [cfg.TempDir, videoID, quality.Resolution]) tw.entries tw.matched).get? i
        = some f →
      Effect.upload f (segmentKey videoID quality.Resolution i) ∈
        (transcodeAndSegment cfg tw videoID inputPath quality).1) ∧
    (∀ i, (∃ key seg, Effect.putSegment key seg ∈
          (transcodeAndSegment cfg tw videoID inputPath quality).1 ∧ seg.Sequence = i) ↔
        (i < (Glob (joinPath [cfg.TempDir, videoID, quality.Resolution]) tw.entries tw.matched).length ∧
          tw.uploadErr i = none)) ∧
    (∀ key seg, Effect.putSegment key seg ∈
        (transcodeAndSegment cfg tw videoID inputPath quality).1 →
      key = "/segments/" ++ seg.SegmentID ∧
      seg.S3Key = segmentKey videoID quality.Resolution seg.Sequence ∧
      ∃ f, (Glob (joinPath [cfg.TempDir, videoID, quality.Resolution]) tw.entries tw.matched).get?
          seg.Sequence = some f ∧
        Effect.upload f seg.S3Key ∈ (transcodeAndSegment cfg tw videoID inputPath quality).1) ∧
    (∃ pre, (transcodeAndSegment cfg tw videoID inputPath quality).1 =
        pre ++ [Effect.upload
            (joinPath [joinPath [cfg.TempDir, videoID, quality.Resolution], "playlist.m3u8"])
            (playlistKey videoID quality.Resolution),
          Effect.observe (Metric.VideoProcessingDuration quality.Resolution)] ∧
      (∀ key seg, Effect.putSegment key seg ∈
          (transcodeAndSegment cfg tw videoID inputPath quality).1 →
        Effect.putSegment key seg ∈ pre) ∧
      (∀ i f, (Glob (joinPath [cfg.TempDir, videoID, quality.Resolution]) tw.entries tw.matched).get? i
          = some f →
        Effect.upload f (segmentKey videoID quality.Resolution i) ∈ pre)) := by
  have htr := transcodeAndSegment_trace cfg tw videoID inputPath quality hok
  have hput : ∀ key seg, Effect.putSegment key seg ∈
      (transcodeAndSegment cfg tw videoID inputPath quality).1 →
      Effect.putSegment key seg ∈ (segmentLoop tw videoID quality.Resolution 0
        (Glob (joinPath [cfg.TempDir, videoID, quality.Resolution]) tw.entries tw.matched)).1 := by
    intro key seg h
    rw [htr] at h
    simpa using h
  have hin : ∀ x, x ∈ (segmentLoop tw videoID quality.Resolution 0
        (Glob (joinPath [cfg.TempDir, videoID, quality.Resolution]) tw.entries tw.matched)).1 →
      x ∈ (transcodeAndSegment cfg tw videoID inputPath quality).1 := by
    intro x hx
    rw [htr]
    simp [hx]
  have hup : ∀ i f, (Glob (joinPath [cfg.TempDir, videoID, quality.Resolution]) tw.entries tw.matched).get? i
      = some f → Effect.upload f (segmentKey videoID quality.Resolution i) ∈
        (segmentLoop tw videoID quality.Resolution 0
          (Glob (joinPath [cfg.TempDir, videoID, quality.Resolution]) tw.entries tw.matched)).1 := by
    intro i f h
    have := segmentLoop_upload tw videoID quality.Resolution _ 0 i f h
    rwa [Nat.zero_add] at this
  refine ⟨by rw [htr], fun i f h => hin _ (hup i f h), ?_, ?_, ?_⟩
  · intro i
    constructor
    · rintro ⟨key, seg, hmem, rfl⟩
      obtain ⟨_, h2, h3, _⟩ := segmentLoop_put _ _ _ _ _ _ _ (hput key seg hmem)
      exact ⟨by omega, h3⟩
    · rintro ⟨hi, hu⟩
      obtain ⟨seg, hmem, hseq⟩ := segmentLoop_put_of_uploaded tw videoID quality.Resolution
        (Glob (joinPath [cfg.TempDir, videoID, quality.Resolution]) tw.entries tw.matched) 0 i hi
        (by rwa [Nat.zero_add])
      exact ⟨_, seg, hin _ hmem, by omega⟩
  · intro key seg hmem
    obtain ⟨_, h2, _, _, h5, h6⟩ := segmentLoop_put _ _ _ _ _ _ _ (hput key seg hmem)
    refine ⟨h5, h6, ?_⟩
    have hlt : seg.Sequence <
        (Glob (joinPath [cfg.TempDir, videoID, quality.Resolution]) tw.entries tw.matched).length := by
      omega
    refine ⟨_, List.get?_eq_get hlt, ?_⟩
    rw [h6]
    exact hin _ (hup _ _ (List.get?_eq_get hlt))
  · refine ⟨_, by rw [htr], fun key seg hmem => ?_, fun i f h => ?_⟩
    · exact List.mem_append_right _ (hput key seg hmem)
    · exact List.mem_append_right _ (hup i f h)

/-- When the working directory path has no glob metacharacter, every segment
file the transcoder left there is uploaded. -/
theorem literal_directory_handles_every_file (cfg : Config) (tw : TierWorld)
    (videoID inputPath : String) (quality : VideoQuality) (hok : tierFails tw = false)
    (hmeta : hasMeta (joinPath [cfg.TempDir, videoID, quality.Resolution]) = false)
    (n : String) (hn : n ∈ tw.entries) (hts : ".ts".data.isSuffixOf n.data = true) :
    ∃ i, Effect.upload (joinPath [joinPath [cfg.TempDir, videoID, quality.Resolution], n])
        (segmentKey videoID quality.Resolution i) ∈
      (transcodeAndSegment cfg tw videoID inputPath quality).1 := by
  have hmem : joinPath [joinPath [cfg.TempDir, videoID, quality.Resolution], n] ∈
      Glob (joinPath [cfg.TempDir, videoID, quality.Resolution]) tw.entries tw.matched := by
    rw [Glob_of_literal _ _ _ hmeta]
    unfold globDir
    apply List.mem_map.2
    refine ⟨n, ?_, rfl⟩
    exact (List.perm_insertionSort strLE _).mem_iff.2 (List.mem_filter.2 ⟨hn, hts⟩)
  obtain ⟨i, hi⟩ := List.get?_of_mem hmem
  exact ⟨i, transcodeAndSegment_upload cfg tw videoID inputPath quality hok i _ hi⟩

/-- C11 fails on the code for the video identifier v[1]: the transcoder left
two segment files in the working directory /tmp/video-processing/v[1]/1080p,
every call succeeds, and no other path matches that directory read as a
pattern (there is no directory v1).  `filepath.Glob` reads the directory part
of its pattern as a pattern and lists nothing, so neither file is uploaded, no
Segment record is put, only the manifest is uploaded, and the tier returns
nil. -/
theorem pattern_video_id_skips_segments :
    hasMeta (joinPath [cfgDefault.TempDir, "v[1]", "1080p"]) = true ∧
    (tierAllOk.entries.filter fun n => ".ts".data.isSuffixOf n.data) =
      ["segment_001.ts", "segment_000.ts"] ∧
    (∀ i, tierAllOk.uploadErr i = none) ∧
    transcodeAndSegment cfgDefault tierAllOk "v[1]" "/tmp/video-processing/v[1]/a.mp4"
        { Resolution := "1080p", Bitrate := "5000k", Codec := "libx264" } =
      ([Effect.enter "v[1]" "/tmp/video-processing/v[1]/a.mp4"
          { Resolution := "1080p", Bitrate := "5000k", Codec := "libx264" },
        Effect.mkdirAll "/tmp/video-processing/v[1]/1080p",
        Effect.ffmpeg "/tmp/video-processing/v[1]/a.mp4"
          { Resolution := "1080p", Bitrate := "5000k", Codec := "libx264" }
          "/tmp/video-processing/v[1]/1080p/segment_%03d.ts"
          "/tmp/video-processing/v[1]/1080p/playlist.m3u8",
        Effect.glob "/tmp/video-processing/v[1]/1080p/*.ts",
        Effect.upload "/tmp/video-processing/v[1]/1080p/playlist.m3u8"
          "videos/v[1]/1080p/playlist.m3u8",
        Effect.observe (Metric.VideoProcessingDuration "1080p")],
       Result.ok) := by
  refine ⟨by decide, by decide, fun _ => rfl, by rfl⟩

end VideoVault
